import Mathlib

/-!
Shallow embedding of the client-side scripts of the portfolio website
(`js/script.js`, `js/image-diagnostics.js`, and the main page script):
project/blog loading and rendering, contact-form validation and submission,
the markdown-to-HTML converter, and the session-storage handoff between the
overview page and the detail pages.  The DOM is modelled as explicit lists of
rendered items, network calls as explicit fetch-outcome parameters, and JS
strings as Lean strings (sequences of characters).
-/

namespace Portfolio

/-! ## Project records and cards (`createProjectCard`) -/

/-- A project record as read from `data/projects.json`, with the fields that
`createProjectCard` and the detail page actually read. -/
structure Project where
  id : Int
  title : String
  description : String
  technologies : List String
  image : Option String
  deriving Repr, DecidableEq

/-- The content of a rendered project card: `createProjectCard` shows the
title, a possibly truncated description, at most four technology tags plus an
optional `+N more` tag, and wires the "View More Details" button to the
project's id. -/
structure Card where
  title : String
  shortDescription : String
  techTags : List String
  moreTechTag : Option Nat
  detailTargetId : Int
  animationIndex : Nat
  deriving Repr, DecidableEq

/-- `createProjectCard(project, index)`: truncates the description to its
first 120 characters (appending `...`) when it is longer than 120 characters,
shows only the first 4 technologies, and appends a `+N more` tag when there
are more than 4. -/
def createProjectCard (project : Project) (index : Nat) : Card :=
  { title := project.title
    shortDescription :=
      if 120 < project.description.length then
        String.mk (project.description.data.take 120) ++ "..."
      else
        project.description
    techTags := project.technologies.take 4
    moreTechTag :=
      if 4 < project.technologies.length then
        some (project.technologies.length - 4)
      else
        none
    detailTargetId := project.id
    animationIndex := index }

/-! ## The projects grid (`displayProjects`, `toggleProjectsView`)

The grid is a list of rendered items: project cards (each remembering the
record it was rendered from), the `view-more-container` elements (either the
"View More Projects (n more)" button or the "Show Less Projects" button), the
error placeholder of `showProjectsError`, and the loading placeholder. -/

/-- One child element of the `#projects-grid` node. -/
inductive GridItem (α : Type) where
  /-- A `.project-card` element rendered from record `record`. -/
  | card (record : α)
  /-- A `.view-more-container` holding the "View More Projects (`moreCount` more)" button. -/
  | viewMore (moreCount : Nat)
  /-- A `.view-more-container` holding the "Show Less Projects" button. -/
  | showLess
  /-- The `.projects-error` placeholder with its "Try Again" button. -/
  | errorNotice
  /-- The `.projects-loading` placeholder. -/
  | loadingNotice
  deriving Repr, DecidableEq

namespace GridItem

/-- Does the element match the `.project-card` selector? -/
def isCard {α : Type} : GridItem α → Bool
  | card _ => true
  | _ => false

/-- Does the element match the `.view-more-container` selector?  Both the
"View More Projects" and the "Show Less Projects" buttons live in such a
container. -/
def isViewMoreContainer {α : Type} : GridItem α → Bool
  | viewMore _ => true
  | showLess => true
  | _ => false

end GridItem

/-- The state touched by the projects section: the grid contents and the
page-wide cache `window.allProjects`. -/
structure GridState (α : Type) where
  items : List (GridItem α)
  allProjects : Option (List α)
  deriving Repr, DecidableEq

/-- `document.querySelector('.view-more-container').remove()`: drop the first
element matching the selector, keep everything else. -/
def removeFirstContainer {α : Type} : List (GridItem α) → List (GridItem α)
  | [] => []
  | i :: rest =>
    if i.isViewMoreContainer then rest else i :: removeFirstContainer rest

/-- `displayProjects(projects)`: clears the grid, caches the array in
`window.allProjects`, renders cards for `projects.slice(0, 3)`, and, when
there are more than 3 projects, appends a "View More Projects (n-3 more)"
container. -/
def displayProjects {α : Type} (projects : List α) : GridState α :=
  { allProjects := some projects
    items :=
      (projects.take 3).map GridItem.card ++
        (if 3 < projects.length then
          [GridItem.viewMore (projects.length - 3)]
        else
          []) }

/-- `expandProjectsView()`: returns unchanged when `window.allProjects` is
unset; otherwise removes the `view-more-container`, appends a card for every
record of `window.allProjects.slice(3)` in order, and appends the "Show Less
Projects" container. -/
def expandProjectsView {α : Type} (g : GridState α) : GridState α :=
  match g.allProjects with
  | none => g
  | some ps =>
    { allProjects := some ps
      items :=
        removeFirstContainer g.items ++
          (ps.drop 3).map GridItem.card ++ [GridItem.showLess] }

/-- Keep every non-card element, and only the first `k` card elements
(`contractProjectsView` removes the cards from index 3 on). -/
def keepFirstCards {α : Type} : Nat → List (GridItem α) → List (GridItem α)
  | _, [] => []
  | k, i :: rest =>
    if i.isCard then
      match k with
      | 0 => keepFirstCards 0 rest
      | k' + 1 => i :: keepFirstCards k' rest
    else
      i :: keepFirstCards k rest

/-- `contractProjectsView()`: returns unchanged when `window.allProjects` is
unset; otherwise removes the cards beyond the first 3 and, when a
`view-more-container` is present, replaces it by a fresh "View More Projects
(n-3 more)" container appended at the end. -/
def contractProjectsView {α : Type} (g : GridState α) : GridState α :=
  match g.allProjects with
  | none => g
  | some ps =>
    let pruned := keepFirstCards 3 g.items
    { allProjects := some ps
      items :=
        if g.items.any GridItem.isViewMoreContainer then
          removeFirstContainer pruned ++
            [GridItem.viewMore (ps.length - 3)]
        else
          pruned }

/-! ## Contact form (`validateContactForm`, `handleContactFormSubmit`) -/

/-- The character class trimmed by JS `String.prototype.trim` (modelled by the
ASCII whitespace characters). -/
def jsWhitespace (c : Char) : Bool := c.isWhitespace

/-- JS `s.trim()`: strip whitespace from both ends of the string. -/
def jsTrim (s : String) : String :=
  String.mk ((((s.data.dropWhile jsWhitespace).reverse).dropWhile jsWhitespace).reverse)

/-- The values produced by `Object.fromEntries(new FormData(form).entries())`:
each required field is either absent (`undefined`) or present with a string
value. -/
structure FormValues where
  name : Option String
  email : Option String
  subject : Option String
  message : Option String
  deriving Repr, DecidableEq

/-- `formValues[field]` for the four required field names. -/
def FormValues.get (v : FormValues) : String → Option String
  | "name" => v.name
  | "email" => v.email
  | "subject" => v.subject
  | "message" => v.message
  | _ => none

/-- JS truthiness test on `formValues[field]` (a string or `undefined`):
falsy exactly for `undefined` and the empty string. -/
def jsFalsyStr : Option String → Bool
  | none => true
  | some s => s == ""

/-- The per-field test of `validateContactForm`:
`!formValues[field] || formValues[field].trim() === ''`. -/
def requiredFieldMissing : Option String → Bool
  | none => true
  | some s => s == "" || jsTrim s == ""

/-- JS `String.prototype.split` with a single-character separator: the
(possibly empty) pieces between occurrences of `sep`. -/
def splitOnChar (sep : Char) : List Char → List (List Char)
  | [] => [[]]
  | c :: rest =>
    if c = sep then
      [] :: splitOnChar sep rest
    else
      match splitOnChar sep rest with
      | [] => [[c]]
      | l :: ls => (c :: l) :: ls

/-- A character admitted by the `[^\s@]` class of the email regex. -/
def emailAtomChar (c : Char) : Bool := !jsWhitespace c && c != '@'

/-- Is there a `'.'` strictly inside the list (neither first nor last)?  This
is exactly when the list splits as `b ++ '.' :: c` with `b`, `c` nonempty. -/
def hasInteriorDot : List Char → Bool
  | [] => false
  | _ :: rest => dotBeforeLast rest
where
  /-- Is there a `'.'` in the list that is not its final element? -/
  dotBeforeLast : List Char → Bool
    | [] => false
    | '.' :: _ :: _ => true
    | _ :: rest => dotBeforeLast rest

/-- `isValidEmail(email)`: the test of `/^[^\s@]+@[^\s@]+\.[^\s@]+$/`.  The
string matches iff it decomposes as `a@b.c` with `a`, `b`, `c` nonempty and
free of whitespace and `@`; since the classes exclude `@`, this forces exactly
one `@`, and the domain part must contain an interior dot. -/
def isValidEmail (email : String) : Bool :=
  match splitOnChar '@' email.data with
  | [localPart, domain] =>
    !localPart.isEmpty && localPart.all emailAtomChar &&
      domain.all emailAtomChar && hasInteriorDot domain
  | _ => false

/-- The list of messages passed to `showFieldError`, paired with the field
each one is attached to. -/
abbrev FieldErrors := List (String × String)

/-- The outcome of one call to `validateContactForm`: the field-level error
messages it showed, and its boolean return value. -/
structure ValidationResult where
  fieldErrors : FieldErrors
  isValid : Bool
  deriving Repr, DecidableEq

/-- The required field names, in the order `validateContactForm` visits them. -/
def requiredFields : List String := ["name", "email", "subject", "message"]

/-- `validateContactForm(formValues)`: shows "This field is required" for
every required field that is absent or whitespace-only, shows "Please enter a
valid email address" when the email is present (truthy) but fails the regex,
and returns `true` iff no error was shown. -/
def validateContactForm (formValues : FormValues) : ValidationResult :=
  let requiredErrors :=
    (requiredFields.filter fun f => requiredFieldMissing (formValues.get f)).map
      fun f => (f, "This field is required")
  let emailError :=
    if !jsFalsyStr formValues.email && !isValidEmail (formValues.email.getD "") then
      [("email", "Please enter a valid email address")]
    else
      []
  { fieldErrors := requiredErrors ++ emailError
    isValid := requiredErrors.isEmpty && emailError.isEmpty }

/-- The submit button of the contact form. -/
structure ButtonState where
  disabled : Bool
  label : String
  deriving Repr, DecidableEq

/-- `showFormLoading(isLoading)`: disable the button with text "Sending..."
while loading, restore it enabled with text "Send Message" otherwise. -/
def showFormLoading : Bool → ButtonState
  | true => { disabled := true, label := "Sending..." }
  | false => { disabled := false, label := "Send Message" }

/-- How the awaited `fetch(form.action, ...)` to the form-handling service can
settle, as distinguished by `handleContactFormSubmit`. -/
inductive FormFetchOutcome where
  /-- `response.ok`. -/
  | ok
  /-- Non-ok response whose JSON body has an `errors` array; each entry may
  carry a `field` and carries a `message`. -/
  | fieldErrors (errors : List (Option String × String))
  /-- Non-ok response whose JSON body has no `errors` array
  (`throw new Error('Failed to send message')`). -/
  | errOther
  /-- Non-ok response whose body fails to parse as JSON
  (`response.json()` rejects). -/
  | errBadJson
  /-- The fetch itself rejects (network failure). -/
  | networkFailure
  deriving Repr, DecidableEq

/-- A message container shown next to the form after submission. -/
inductive FormNotice where
  | successMessage
  | errorMessage (msg : String)
  | noNotice
  deriving Repr, DecidableEq

/-- Everything observable about one run of `handleContactFormSubmit`. -/
structure SubmitRun where
  /-- Field-level errors shown via `showFieldError`. -/
  fieldErrors : FieldErrors
  /-- Whether the run reached the `fetch` call. -/
  fetchIssued : Bool
  /-- The state of the submit button after the run settles. -/
  finalButton : ButtonState
  /-- Whether `form.reset()` ran. -/
  formWasReset : Bool
  /-- The success / error message container shown. -/
  notice : FormNotice
  deriving Repr, DecidableEq

/-- `handleContactFormSubmit(event)`: validates first and returns without any
network request when validation fails; otherwise shows the loading state,
issues the fetch, handles the five ways it can settle, and restores the
button via `showFormLoading(false)` in the `finally` block.  `b0` is the
button state when the handler starts. -/
def handleContactFormSubmit (formValues : FormValues) (b0 : ButtonState)
    (outcome : FormFetchOutcome) : SubmitRun :=
  let v := validateContactForm formValues
  if !v.isValid then
    { fieldErrors := v.fieldErrors
      fetchIssued := false
      finalButton := b0
      formWasReset := false
      notice := .noNotice }
  else
    match outcome with
    | .ok =>
      { fieldErrors := v.fieldErrors
        fetchIssued := true
        finalButton := showFormLoading false
        formWasReset := true
        notice := .successMessage }
    | .fieldErrors errs =>
      { fieldErrors := v.fieldErrors ++
          errs.filterMap fun e => e.1.map fun f => (f, e.2)
        fetchIssued := true
        finalButton := showFormLoading false
        formWasReset := false
        notice := .noNotice }
    | .errOther | .errBadJson | .networkFailure =>
      { fieldErrors := v.fieldErrors
        fetchIssued := true
        finalButton := showFormLoading false
        formWasReset := false
        notice := .errorMessage
          "There was an error sending your message. Please try again or contact me directly via email." }

/-! ## Parsed JSON documents and the two loaders (`loadProjects`, `loadBlogs`) -/

/-- A parsed JSON document (numbers restricted to the integers used by the
data files). -/
inductive Json where
  | null
  | bool (b : Bool)
  | num (n : Int)
  | str (s : String)
  | arr (elems : List Json)
  | obj (fields : List (String × Json))

namespace Json

/-- JS property access `data.k`: the field of an object, `undefined` (`none`)
otherwise.  (Access on `null` throws in JS; in `loadProjects` both that throw
and the explicit `Invalid projects data structure` throw land in the same
`catch`, so `none` models it with the same observable outcome.) -/
def getField : Json → String → Option Json
  | obj fields, k => fields.lookup k
  | _, _ => none

/-- JS truthiness of a parsed JSON value. -/
def truthy : Json → Bool
  | null => false
  | bool b => b
  | num n => n != 0
  | str s => s != ""
  | arr _ => true
  | obj _ => true

end Json

/-- JS truthiness of a possibly-`undefined` value. -/
def jsTruthyOpt : Option Json → Bool
  | none => false
  | some j => j.truthy

/-- `Array.isArray` on a possibly-`undefined` value. -/
def jsIsArray : Option Json → Bool
  | some (Json.arr _) => true
  | _ => false

/-- How one awaited fetch of a static JSON file can settle. -/
inductive FetchOutcome where
  /-- The fetch itself rejects (network error). -/
  | networkFailure
  /-- `!response.ok` (non-2xx status): the loader throws. -/
  | badStatus (status : Nat)
  /-- `response.json()` rejects (the body is not valid JSON). -/
  | parseFailure
  /-- The response was ok and its body parsed to `data`. -/
  | parsed (data : Json)

/-- Whether a loader hands the parsed document on to its display step, or its
`catch` block runs instead. -/
inductive LoaderDecision (α : Type) where
  | display (payload : α)
  | rejected
  deriving Repr, DecidableEq

/-- The control flow of `loadProjects` up to the display/error decision: any
fetch, status, or parse failure is rejected, and a parsed document is
displayed exactly when `data.projects && Array.isArray(data.projects)`
(equivalently, by `jsProjectsCheck_iff`, when the `projects` field is an
array); otherwise it throws `Invalid projects data structure` into the same
`catch`. -/
def loadProjectsDecision (o : FetchOutcome) : LoaderDecision (List Json) :=
  match o with
  | .parsed data =>
    match data.getField "projects" with
    | some (Json.arr projects) => .display projects
    | _ => .rejected
  | _ => .rejected

/-- The control flow of `loadBlogs` up to the display/error decision: after a
successful parse there is no test of the document's shape at all — the value
is logged (`blogs.length`, which throws only for `null`), cached in
`window.allBlogs`, and handed to `displayBlogs`. -/
def loadBlogsDecision (o : FetchOutcome) : LoaderDecision Json :=
  match o with
  | .parsed blogs =>
    match blogs with
    | Json.null => .rejected
    | _ => .display blogs
  | _ => .rejected

/-- The sample project record hard-coded in `showProjectsError`. -/
def sampleProject : Json :=
  .obj
    [("id", .num 1),
     ("title", .str "Sample Project"),
     ("description",
       .str "This is a sample project to demonstrate the project card functionality. Click \x27View More Details\x27 to see the project detail page."),
     ("technologies",
       .arr [.str "JavaScript", .str "HTML", .str "CSS", .str "Sample Tech"]),
     ("image", .str "./assets/images/project-placeholder.jpg")]

/-- `showProjectsError()`: replaces the grid contents by the `.projects-error`
placeholder (message plus a "Try Again" button whose onclick is
`loadProjects()`), then appends a card for the hard-coded sample project.
`window.allProjects` is not touched. -/
def showProjectsError (prior : GridState Json) : GridState Json :=
  { items := [GridItem.errorNotice, GridItem.card sampleProject]
    allProjects := prior.allProjects }

/-- The observable result of one invocation of `loadProjects()`:
how many fetches of `data/projects.json` it issued, and the grid it left
behind. -/
structure LoadProjectsRun where
  fetchCount : Nat
  grid : GridState Json

/-- `loadProjects()`: shows the loading state, issues exactly one fetch, and
either displays the `projects` array or renders the error state.  No path
re-enters `loadProjects`; the only way the fetch is re-issued is the manual
"Try Again" button, whose onclick is `loadProjects()` itself. -/
def loadProjects (prior : GridState Json) (o : FetchOutcome) : LoadProjectsRun :=
  match loadProjectsDecision o with
  | .display projects => { fetchCount := 1, grid := displayProjects projects }
  | .rejected => { fetchCount := 1, grid := showProjectsError prior }

/-! ## Session storage handoff and the project detail page
(`navigateToProjectDetail`, `initializeProjectDetailPage`, `loadProjectDetails`) -/

/-- Browser session storage: a string-keyed map of strings.  `setItem`
records the newest binding in front; `getItem` returns the newest binding,
which matches the overwrite semantics of `Storage.setItem`. -/
def SessionStorage := List (String × String)

/-- `sessionStorage.setItem(k, v)`. -/
def SessionStorage.setItem (st : SessionStorage) (k v : String) : SessionStorage :=
  (k, v) :: st

/-- `sessionStorage.getItem(k)` (`none` models `null`). -/
def SessionStorage.getItem (st : SessionStorage) (k : String) : Option String :=
  List.lookup k st

/-- The decimal digit characters used when JS stringifies an integer. -/
def digitChar : Nat → Char
  | 0 => '0' | 1 => '1' | 2 => '2' | 3 => '3' | 4 => '4'
  | 5 => '5' | 6 => '6' | 7 => '7' | 8 => '8' | 9 => '9'
  | _ => '0'

/-- The decimal rendering of a natural number (JS `String(n)`): its base-10
digits, most significant first, and `"0"` for zero. -/
def natToDecimal (n : Nat) : String :=
  if n = 0 then "0" else String.mk ((Nat.digits 10 n).reverse.map digitChar)

/-- JS number-to-string coercion for the integers stored by
`sessionStorage.setItem('selectedProjectId', projectId)`. -/
def jsNumToString (i : Int) : String :=
  if i < 0 then "-" ++ natToDecimal i.natAbs else natToDecimal i.toNat

/-- The decimal digit value of a character, if any. -/
def decDigit? (c : Char) : Option Nat :=
  if c.isDigit then some (c.toNat - 48) else none

/-- The hexadecimal digit value of a character, if any (for the `0x` prefix
handling of `parseInt`). -/
def hexDigit? (c : Char) : Option Nat :=
  if c.isDigit then some (c.toNat - 48)
  else if 'a' ≤ c ∧ c ≤ 'f' then some (c.toNat - 87)
  else if 'A' ≤ c ∧ c ≤ 'F' then some (c.toNat - 55)
  else none

/-- Accumulate the leading run of digits, stopping at the first non-digit
(`parseInt` ignores everything from there on). -/
def parseIntLoop (digit? : Char → Option Nat) (base : Nat) : Nat → List Char → Nat
  | acc, [] => acc
  | acc, c :: cs =>
    match digit? c with
    | some d => parseIntLoop digit? base (acc * base + d) cs
    | none => acc

/-- Parse a nonempty leading run of digits; `none` when the first character
is not a digit (`parseInt` returns `NaN` then). -/
def parseDigits (digit? : Char → Option Nat) (base : Nat) : List Char → Option Nat
  | [] => none
  | c :: cs =>
    match digit? c with
    | some d => some (parseIntLoop digit? base d cs)
    | none => none

/-- Strip a leading `0x` / `0X`, if present (`parseInt` with no radix
argument then parses hexadecimal). -/
def stripHexPrefix? : List Char → Option (List Char)
  | c0 :: c1 :: rest =>
    if c0 = '0' ∧ (c1 = 'x' ∨ c1 = 'X') then some rest else none
  | _ => none

/-- Strip an optional leading sign, returning the sign factor. -/
def splitSign : List Char → Int × List Char
  | [] => (1, [])
  | c :: rest =>
    if c = '-' then (-1, rest)
    else if c = '+' then (1, rest)
    else (1, c :: rest)

/-- `parseInt(string)` with no radix argument: skip leading whitespace, take
an optional sign, honour a `0x`/`0X` prefix as hexadecimal and use decimal
otherwise, and parse the maximal leading digit run; `none` models `NaN`. -/
def parseIntJS (s : String) : Option Int :=
  let cs := s.data.dropWhile jsWhitespace
  let sp := splitSign cs
  let mag :=
    match stripHexPrefix? sp.2 with
    | some rest => parseDigits hexDigit? 16 rest
    | none => parseDigits decDigit? 10 sp.2
  mag.map fun n => sp.1 * (n : Int)

/-- The result of `navigateToProjectDetail(projectId)`: the project id is
stored under `selectedProjectId` first, then the browser navigates. -/
structure NavigationResult where
  storage : SessionStorage
  href : String

/-- `navigateToProjectDetail(projectId)`: store the id in session storage
under the key `selectedProjectId`, then navigate to the detail page. -/
def navigateToProjectDetail (projectId : Int) (st : SessionStorage) : NavigationResult :=
  { storage := st.setItem "selectedProjectId" (jsNumToString projectId)
    href := "./project-detail.html" }

/-- What the project detail page ends up showing. -/
inductive DetailPageView where
  /-- `displayProjectDetails(project)` ran on this record. -/
  | projectDetails (project : Json)
  /-- `showError(msg)` ran. -/
  | errorView (msg : String)

/-- `p.id === projectId` inside `loadProjectDetails`: strict equality between
the record's `id` field and the parsed number.  `undefined` or a non-number
`id` is never strictly equal to a number, and a `NaN` id (`none`) compares
false with everything. -/
def idMatches (record : Json) (pid? : Option Int) : Bool :=
  match record.getField "id", pid? with
  | some (Json.num k), some pid => k == pid
  | _, _ => false

/-- `loadProjectDetails(projectId)`: fetch the projects file and display the
first record whose `id` strictly equals `projectId`; every failure (fetch,
status, parse, missing `projects` array, no matching record) lands in the
same `catch`/`showError`. -/
def loadProjectDetails (pid? : Option Int) (o : FetchOutcome) : DetailPageView :=
  match o with
  | .parsed data =>
    match data.getField "projects" with
    | some (Json.arr projects) =>
      match projects.find? (fun p => idMatches p pid?) with
      | some p => .projectDetails p
      | none => .errorView "Failed to load project details. Please try again."
    | _ => .errorView "Failed to load project details. Please try again."
  | _ => .errorView "Failed to load project details. Please try again."

/-- The observable outcome of `initializeProjectDetailPage()`. -/
structure DetailPageResult where
  view : DetailPageView
  /-- `some target` when the page schedules `window.location.href = target`. -/
  redirectTarget : Option String

/-- `initializeProjectDetailPage()`: read `selectedProjectId` from session
storage; when it is absent (or empty, hence falsy) show the error and
redirect to the overview page; otherwise `parseInt` it and load the record. -/
def initializeProjectDetailPage (st : SessionStorage) (o : FetchOutcome) :
    DetailPageResult :=
  match st.getItem "selectedProjectId" with
  | none =>
    { view := .errorView "No project selected. Redirecting to portfolio..."
      redirectTarget := some "./index.html" }
  | some v =>
    if v = "" then
      { view := .errorView "No project selected. Redirecting to portfolio..."
        redirectTarget := some "./index.html" }
    else
      { view := loadProjectDetails (parseIntJS v) o
        redirectTarget := none }

/-! ## Blog detail page lookup (`getURLParameter`, `findBlogById`,
`displayBlogContent`) -/

/-- JS strict equality `v === s` between an arbitrary value and a string:
true only for the identical string, with no type coercion.  (`getURLParameter`
always returns a string or `null`, and `initializeBlogDetail` only calls
`findBlogById` with a truthy string.) -/
def jsStrictEqStr (v : Json) (s : String) : Bool :=
  match v with
  | .str t => t == s
  | _ => false

/-- `blog.id === blogId` (an absent `id` is `undefined`, never strictly equal
to a string). -/
def idStrictEqString (blog : Json) (blogId : String) : Bool :=
  match blog.getField "id" with
  | some v => jsStrictEqStr v blogId
  | none => false

/-- `findBlogById(blogId)`: the first record of `allBlogs` whose `id` is
strictly equal to the given string; `undefined || null` collapses to `none`. -/
def findBlogById (blogId : String) (allBlogs : List Json) : Option Json :=
  allBlogs.find? fun blog => idStrictEqString blog blogId

/-- What the blog detail page renders for the looked-up record. -/
inductive BlogDetailView where
  /-- The "Blog Not Found" error message. -/
  | notFound
  /-- The full blog content rendered from this record. -/
  | content (blog : Json)

/-- `displayBlogContent(blog)`: a null record renders the "Blog Not Found"
message; otherwise the blog content is rendered. -/
def displayBlogContent : Option Json → BlogDetailView
  | none => .notFound
  | some blog => .content blog

/-! ## The markdown converter (`convertMarkdownToHTML`)

`convertMarkdownToHTML` is a fixed sequence of `String.replace` calls with
regular expressions; each call is embedded as a total scanner over the
character list, in the same order as the source: the three header passes
(`^### `, `^## `, `^# ` with the `m` flag, i.e. line-wise), bold
`\*\*(.*?)\*\*`, italic `\*(.*?)\*`, fenced code blocks
triple-backtick`(\w+)?\n([\s\S]*?)`triple-backtick, inline code, the blank
line pass `\n\n`, the two list passes, the single (non-global) `<ul>`
wrapping pass, and links.  Lazy quantifiers become earliest-close searches;
`.` never matches a newline, `[\s\S]` does. -/

/-- Does `pat` occur at the start of `l`? -/
def startsWith : List Char → List Char → Bool
  | [], _ => true
  | _ :: _, [] => false
  | p :: ps, c :: cs => p == c && startsWith ps cs

/-- Adjacent pair test: is there an occurrence of `x` immediately followed
by `y`? -/
def hasPair (x y : Char) : List Char → Bool
  | [] => false
  | a :: rest => (a == x && rest.head? == some y) || hasPair x y rest

/-- Split into lines at `'\n'` (the line structure seen by the `m` flag). -/
def splitLines : List Char → List (List Char) := splitOnChar '\n'

/-- Rejoin lines with `'\n'`. -/
def joinLines : List (List Char) → List Char
  | [] => []
  | [l] => l
  | l :: ls => l ++ '\n' :: joinLines ls

/-- The three header passes on one line: `^### (.*$)` first, then `^## `,
then `^# ` (a line rewritten by an earlier pass starts with `<` and is left
alone by the later ones, so one ordered test per line is equivalent). -/
def headerLine (line : List Char) : List Char :=
  if startsWith "### ".data line then "<h3>".data ++ line.drop 4 ++ "</h3>".data
  else if startsWith "## ".data line then "<h2>".data ++ line.drop 3 ++ "</h2>".data
  else if startsWith "# ".data line then "<h1>".data ++ line.drop 2 ++ "</h1>".data
  else line

/-- The index at which the earliest closing `**` starts (for the lazy
`(.*?)` of the bold pass, whose `.` cannot cross a newline). -/
def findBoldCloseIdx : List Char → Option Nat
  | [] => none
  | a :: rest =>
    if a = '*' ∧ rest.head? = some '*' then some 0
    else if a = '\n' then none
    else (findBoldCloseIdx rest).map (· + 1)

/-- `\*\*(.*?)\*\*` → `<strong>$1</strong>`, global: scan left to right,
replace each earliest-closed match, continue after it; when a `**` has no
closing `**` on its line, the engine advances one character. -/
def boldScan : List Char → List Char
  | [] => []
  | a :: rest =>
    if h : a = '*' ∧ rest.head? = some '*' then
      match findBoldCloseIdx rest.tail with
      | some i =>
        "<strong>".data ++ rest.tail.take i ++ "</strong>".data ++
          boldScan (rest.tail.drop (i + 2))
      | none => a :: boldScan rest
    else a :: boldScan rest
termination_by l => l.length
decreasing_by
  · have hne : rest ≠ [] := by
      intro hr
      rw [hr] at h
      simp at h
    have : rest.tail.length < rest.length := by
      cases rest with
      | nil => exact absurd rfl hne
      | cons b bs => simp
    simp
    omega
  · simp
  · simp

/-- The index of the earliest closing single delimiter before the end of the
line (for the lazy spans of the italic and inline-code passes). -/
def findDelimCloseIdx (delim : Char) : List Char → Option Nat
  | [] => none
  | a :: rest =>
    if a = delim then some 0
    else if a = '\n' then none
    else (findDelimCloseIdx delim rest).map (· + 1)

/-- `\*(.*?)\*` → `<em>$1</em>`, global. -/
def italicScan : List Char → List Char
  | [] => []
  | a :: rest =>
    if a = '*' then
      match findDelimCloseIdx '*' rest with
      | some i =>
        "<em>".data ++ rest.take i ++ "</em>".data ++ italicScan (rest.drop (i + 1))
      | none => a :: italicScan rest
    else a :: italicScan rest
termination_by l => l.length
decreasing_by
  · have : (rest.drop (i + 1)).length ≤ rest.length := by simp
    simp
    omega
  · simp
  · simp

/-- A `\w` character: `[A-Za-z0-9_]`. -/
def isWordChar (c : Char) : Bool := c.isAlphanum || c == '_'

/-- The index at which the earliest closing triple backtick starts (for the
lazy `([\s\S]*?)` of the fence pass, which does cross newlines). -/
def findTripleCloseIdx : List Char → Option Nat
  | [] => none
  | a :: rest =>
    if a = '`' ∧ rest.take 2 = ['`', '`'] then some 0
    else (findTripleCloseIdx rest).map (· + 1)

/-- The fence pass: triple backtick, an optional `(\w+)?` language word, a
mandatory newline, then the lazy body up to the earliest closing triple
backtick, replaced by `<pre><code class="language-$1">$2</code></pre>`
(an absent language group substitutes as the empty string).  The language
word is the maximal `\w` run: when the character after it is not the
required `\n`, no shorter run can match either, so the engine advances one
character. -/
def fenceScan : List Char → List Char
  | [] => []
  | a :: rest =>
    if a = '`' ∧ rest.take 2 = ['`', '`'] then
      let afterTicks := rest.drop 2
      let lang := afterTicks.takeWhile isWordChar
      let afterLang := afterTicks.dropWhile isWordChar
      if afterLang.head? = some '\n' then
        match findTripleCloseIdx afterLang.tail with
        | some i =>
          "<pre><code class=\"language-".data ++ lang ++ "\">".data ++
            afterLang.tail.take i ++ "</code></pre>".data ++
            fenceScan (afterLang.tail.drop (i + 3))
        | none => a :: fenceScan rest
      else a :: fenceScan rest
    else a :: fenceScan rest
termination_by l => l.length
decreasing_by
  · have h1 : (List.drop (i + 3) (List.dropWhile isWordChar (List.drop 2 rest)).tail).length ≤
        (List.dropWhile isWordChar (List.drop 2 rest)).tail.length := by
      rw [List.length_drop]
      omega
    have h2 : (List.dropWhile isWordChar (List.drop 2 rest)).tail.length ≤
        (List.dropWhile isWordChar (List.drop 2 rest)).length := by
      rw [List.length_tail]
      omega
    have h3 : (List.dropWhile isWordChar (List.drop 2 rest)).length ≤
        (List.drop 2 rest).length :=
      (List.dropWhile_sublist _).length_le
    have h4 : (List.drop 2 rest).length ≤ rest.length := by
      rw [List.length_drop]
      omega
    simp only [List.length_cons]
    omega
  all_goals simp

/-- The inline code pass: backtick`(.*?)`backtick → `<code>$1</code>`,
global. -/
def codeScan : List Char → List Char
  | [] => []
  | a :: rest =>
    if a = '`' then
      match findDelimCloseIdx '`' rest with
      | some i =>
        "<code>".data ++ rest.take i ++ "</code>".data ++ codeScan (rest.drop (i + 1))
      | none => a :: codeScan rest
    else a :: codeScan rest
termination_by l => l.length
decreasing_by
  · have : (rest.drop (i + 1)).length ≤ rest.length := by simp
    simp
    omega
  · simp
  · simp

/-- The blank-line pass: each `\n\n` (left to right, non-overlapping)
becomes `</p><p>`. -/
def paraScan : List Char → List Char
  | [] => []
  | a :: rest =>
    if a = '\n' ∧ rest.head? = some '\n' then
      "</p><p>".data ++ paraScan rest.tail
    else a :: paraScan rest
termination_by l => l.length
decreasing_by
  · have : rest.tail.length ≤ rest.length := by cases rest <;> simp
    simp
    omega
  · simp

/-- The unordered list pass on one line: `^\- (.*$)` → `<li>$1</li>`. -/
def dashLine (line : List Char) : List Char :=
  if startsWith "- ".data line then
    "<li>".data ++ line.drop 2 ++ "</li>".data
  else line

/-- The ordered list pass on one line: `^\d+\. (.*$)` → `<li>$1</li>`.  The
`\d+` run is maximal; if `". "` does not follow it, no shorter run can be
followed by a literal `.` either, so the line only matches when it starts
with a digit and `". "` follows the digit run. -/
def olLine (line : List Char) : List Char :=
  let rest := line.dropWhile Char.isDigit
  if (line.head?.map Char.isDigit).getD false ∧ startsWith ". ".data rest then
    "<li>".data ++ rest.drop 2 ++ "</li>".data
  else line

/-- The first index at which `pat` occurs in `l`. -/
def indexOfSub? (pat : List Char) : List Char → Option Nat
  | [] => if startsWith pat [] then some 0 else none
  | c :: rest =>
    if startsWith pat (c :: rest) then some 0
    else (indexOfSub? pat rest).map (· + 1)

/-- The last index at which `pat` occurs in `l`. -/
def lastIndexOfSub? (pat l : List Char) : Option Nat :=
  ((List.range (l.length + 1)).filter fun i => startsWith pat (l.drop i)).getLast?

/-- The single (non-global) wrapping pass `(<li>.*<\/li>)` → `<ul>$1</ul>`
with the `s` flag: the greedy `.*` makes the one match run from the first
`<li>` to the last `</li>` (provided that closing tag starts at least four
characters after the opening one); everything between is wrapped once. -/
def ulWrap (l : List Char) : List Char :=
  match indexOfSub? "<li>".data l with
  | none => l
  | some i =>
    match lastIndexOfSub? "</li>".data l with
    | none => l
    | some j =>
      if i + 4 ≤ j then
        l.take i ++ "<ul>".data ++ ((l.drop i).take (j + 5 - i)) ++
          "</ul>".data ++ l.drop (j + 5)
      else l

/-- The index of the earliest `stop` character (for the `[^\]]+` and `[^)]+`
classes of the link pass, which do cross newlines). -/
def findUntilIdx (stop : Char) : List Char → Option Nat
  | [] => none
  | a :: rest =>
    if a = stop then some 0
    else (findUntilIdx stop rest).map (· + 1)

/-- The link pass: `\[([^\]]+)\]\(([^)]+)\)` →
`<a href="$2" target="_blank" rel="noopener noreferrer">$1</a>`, global.
The text runs to the first `]` and must be nonempty, `(` must follow
immediately, and the url runs to the first `)` and must be nonempty;
otherwise the engine advances one character. -/
def linkScan : List Char → List Char
  | [] => []
  | a :: rest =>
    if a = '[' then
      match findUntilIdx ']' rest with
      | some i =>
        let text := rest.take i
        let rest2 := rest.drop (i + 1)
        if text ≠ [] ∧ rest2.head? = some '(' then
          match findUntilIdx ')' rest2.tail with
          | some j =>
            let url := rest2.tail.take j
            if url ≠ [] then
              "<a href=\"".data ++ url ++
                "\" target=\"_blank\" rel=\"noopener noreferrer\">".data ++
                text ++ "</a>".data ++ linkScan (rest2.tail.drop (j + 1))
            else a :: linkScan rest
          | none => a :: linkScan rest
        else a :: linkScan rest
      | none => a :: linkScan rest
    else a :: linkScan rest
termination_by l => l.length
decreasing_by
  · have h1 : (List.drop (j + 1) (List.drop (i + 1) rest).tail).length ≤
        (List.drop (i + 1) rest).tail.length := by
      rw [List.length_drop]
      omega
    have h2 : (List.drop (i + 1) rest).tail.length ≤ (List.drop (i + 1) rest).length := by
      rw [List.length_tail]
      omega
    have h3 : (List.drop (i + 1) rest).length ≤ rest.length := by
      rw [List.length_drop]
      omega
    simp only [List.length_cons]
    omega
  all_goals simp

/-- `convertMarkdownToHTML(content)` on the character list: the passes in
source order — headers (three line-wise passes), bold, italic, fenced code
blocks, inline code, blank lines, unordered list items, the single `<ul>`
wrap, ordered list items, links. -/
def convertMarkdownToHTMLChars (content : List Char) : List Char :=
  let s1 := joinLines ((splitLines content).map headerLine)
  let s2 := boldScan s1
  let s3 := italicScan s2
  let s4 := fenceScan s3
  let s5 := codeScan s4
  let s6 := paraScan s5
  let s7 := joinLines ((splitLines s6).map dashLine)
  let s8 := ulWrap s7
  let s9 := joinLines ((splitLines s8).map olLine)
  linkScan s9

/-- `convertMarkdownToHTML(content)`. -/
def convertMarkdownToHTML (content : String) : String :=
  String.mk (convertMarkdownToHTMLChars content.data)

/-- A character that means nothing to any of the converter's regexes (also
excluding `-` and `.` so it cannot begin a list item, `<`/`>` so it cannot
form a tag, and `\r` so the JS `m` flag sees the same lines we do). -/
def mdPlain (c : Char) : Bool :=
  !(c ∈ ['#', '*', '`', '\n', '\r', '[', ']', '(', ')', '<', '>', '-', '.'])

/-! ## Shared lemmas about the projects grid -/

theorem countP_isCard_map_card {α : Type} (xs : List α) :
    (xs.map GridItem.card).countP (GridItem.isCard (α := α)) = xs.length := by
  induction xs with
  | nil => rfl
  | cons x xs ih => simp [List.countP_cons, GridItem.isCard, ih]

theorem removeFirstContainer_append {α : Type} (l₁ l₂ : List (GridItem α))
    (h : ∀ i ∈ l₁, i.isViewMoreContainer = false) :
    removeFirstContainer (l₁ ++ l₂) = l₁ ++ removeFirstContainer l₂ := by
  induction l₁ with
  | nil => rfl
  | cons i rest ih =>
    have hi := h i (List.mem_cons_self i rest)
    simp only [List.cons_append, removeFirstContainer, hi, Bool.false_eq_true, if_false,
      List.append_eq]
    rw [ih fun j hj => h j (List.mem_cons_of_mem _ hj)]

theorem cards_not_container {α : Type} (xs : List α) :
    ∀ i ∈ xs.map GridItem.card, GridItem.isViewMoreContainer i = false := by
  intro i hi
  obtain ⟨x, _, rfl⟩ := List.mem_map.mp hi
  rfl

theorem expand_display_items {α : Type} (projects : List α) :
    (expandProjectsView (displayProjects projects)).items
      = projects.map GridItem.card ++ [GridItem.showLess] := by
  simp only [expandProjectsView, displayProjects]
  rw [removeFirstContainer_append _ _ (cards_not_container _)]
  by_cases h3 : 3 < projects.length
  · simp only [if_pos h3]
    simp [removeFirstContainer, GridItem.isViewMoreContainer, ← List.map_append]
  · simp only [if_neg h3]
    simp [removeFirstContainer, ← List.map_append]

theorem keepFirstCards_map_card_append {α : Type} (k : Nat) (xs : List α) :
    keepFirstCards k (xs.map GridItem.card ++ [GridItem.showLess])
      = (xs.take k).map GridItem.card ++ [GridItem.showLess] := by
  induction xs generalizing k with
  | nil => simp [keepFirstCards, GridItem.isCard]
  | cons x xs ih =>
    cases k with
    | zero =>
      simp only [List.map_cons, List.cons_append, keepFirstCards, GridItem.isCard,
        List.append_eq, if_true]
      rw [ih 0]
      simp
    | succ k' =>
      simp only [List.map_cons, List.cons_append, keepFirstCards, GridItem.isCard,
        List.append_eq, if_true]
      rw [ih k']
      simp

theorem contract_expand_display_items {α : Type} (projects : List α) :
    (contractProjectsView (expandProjectsView (displayProjects projects))).items
      = (projects.take 3).map GridItem.card ++ [GridItem.viewMore (projects.length - 3)] := by
  have he : (expandProjectsView (displayProjects projects)).items
      = projects.map GridItem.card ++ [GridItem.showLess] := expand_display_items projects
  have ha : (expandProjectsView (displayProjects projects)).allProjects = some projects := by
    simp [expandProjectsView, displayProjects]
  simp only [contractProjectsView, ha, he]
  have hany : (projects.map GridItem.card ++ [GridItem.showLess]).any
      GridItem.isViewMoreContainer = true := by
    simp [List.any_append, GridItem.isViewMoreContainer]
  rw [if_pos hany, keepFirstCards_map_card_append,
    removeFirstContainer_append _ _ (cards_not_container _)]
  simp [removeFirstContainer, GridItem.isViewMoreContainer]

/-- Claim C1: for every fetched projects array of length `n`, the initial
render shows exactly `min n 3` project cards; when `n > 3` it also shows the
"View More Projects" control labelled `n - 3`, and `expandProjectsView`
leaves the grid with a card for every record of the cached array, in order
(so exactly the remaining `n - 3` cards are appended), followed by the
"Show Less Projects" control. -/
theorem C1_displayProjects_initial_and_expand {α : Type} (projects : List α) :
    (displayProjects projects).items.countP (GridItem.isCard (α := α))
        = min projects.length 3
    ∧ (3 < projects.length →
        GridItem.viewMore (projects.length - 3) ∈ (displayProjects projects).items)
    ∧ (expandProjectsView (displayProjects projects)).items
        = projects.map GridItem.card ++ [GridItem.showLess] := by
  refine ⟨?_, ?_, expand_display_items projects⟩
  · simp only [displayProjects]
    rw [List.countP_append, countP_isCard_map_card]
    have h2 : (if 3 < projects.length then [GridItem.viewMore (α := α) (projects.length - 3)]
        else []).countP (GridItem.isCard (α := α)) = 0 := by
      split <;> simp [GridItem.isCard]
    rw [h2, List.length_take]
    omega
  · intro h3
    simp [displayProjects, if_pos h3]

/-- Witness for C1 at the spec's example: a projects array of length 5 shows
3 cards initially, the control is labelled 2, and expanding reveals all 5
cards (the remaining 2 appended) in order. -/
theorem C1_witness :
    (displayProjects [1, 2, 3, 4, 5]).items.countP (GridItem.isCard (α := Nat)) = min 5 3
    ∧ GridItem.viewMore 2 ∈ (displayProjects [1, 2, 3, 4, 5]).items
    ∧ (expandProjectsView (displayProjects [1, 2, 3, 4, 5])).items
        = [1, 2, 3, 4, 5].map GridItem.card ++ [GridItem.showLess] := by
  obtain ⟨h1, h2, h3⟩ := C1_displayProjects_initial_and_expand [1, 2, 3, 4, 5]
  exact ⟨h1, h2 (by decide), h3⟩

/-- Claim C7: the project records are read-only fixtures — the cache
`window.allProjects` set by `displayProjects` is the exact array passed in
and survives expand and contract unchanged, and every card ever rendered by
these operations is rendered from a member of that same array (no field of
any record is written). -/
theorem C7_records_readonly {α : Type} (projects : List α) :
    (displayProjects projects).allProjects = some projects
    ∧ (expandProjectsView (displayProjects projects)).allProjects = some projects
    ∧ (contractProjectsView (expandProjectsView (displayProjects projects))).allProjects
        = some projects
    ∧ (∀ r : α, GridItem.card r ∈ (displayProjects projects).items → r ∈ projects)
    ∧ (∀ r : α, GridItem.card r ∈ (expandProjectsView (displayProjects projects)).items →
        r ∈ projects)
    ∧ (∀ r : α, GridItem.card r ∈
        (contractProjectsView (expandProjectsView (displayProjects projects))).items →
        r ∈ projects) := by
  have ha : (expandProjectsView (displayProjects projects)).allProjects = some projects := by
    simp [expandProjectsView, displayProjects]
  refine ⟨rfl, ha, ?_, ?_, ?_, ?_⟩
  · simp only [contractProjectsView, ha]
  · intro r hr
    simp only [displayProjects] at hr
    rcases List.mem_append.mp hr with h | h
    · obtain ⟨x, hx, hxe⟩ := List.mem_map.mp h
      cases hxe
      exact List.mem_of_mem_take hx
    · split at h <;> simp at h
  · intro r hr
    rw [expand_display_items] at hr
    rcases List.mem_append.mp hr with h | h
    · obtain ⟨x, hx, hxe⟩ := List.mem_map.mp h
      cases hxe
      exact hx
    · simp at h
  · intro r hr
    rw [contract_expand_display_items] at hr
    rcases List.mem_append.mp hr with h | h
    · obtain ⟨x, hx, hxe⟩ := List.mem_map.mp h
      cases hxe
      exact List.mem_of_mem_take hx
    · simp at h

/-- Witness for C7 at a concrete two-record array. -/
theorem C7_witness :
    (displayProjects [7, 8]).allProjects = some [7, 8]
    ∧ (expandProjectsView (displayProjects [7, 8])).allProjects = some [7, 8]
    ∧ (7 : Nat) ∈ [7, 8] := by
  obtain ⟨h1, h2, _, h4, _, _⟩ := C7_records_readonly [7, 8]
  exact ⟨h1, h2, h4 7 (by decide)⟩

/-- Claim C8: the rendered card shows the description truncated to its first
120 characters plus `...` exactly when the description is longer than 120
characters (otherwise in full), and shows the first 4 technology tags with a
`+N more` tag exactly when there are more than 4 technologies, with
`N = technologies.length - 4`. -/
theorem C8_createProjectCard_truncation (p : Project) (i : Nat) :
    ((createProjectCard p i).shortDescription
        = String.mk (p.description.data.take 120) ++ "..." ↔ 120 < p.description.length)
    ∧ (p.description.length ≤ 120 →
        (createProjectCard p i).shortDescription = p.description)
    ∧ (createProjectCard p i).techTags = p.technologies.take 4
    ∧ (createProjectCard p i).techTags.length ≤ 4
    ∧ (∀ n, (createProjectCard p i).moreTechTag = some n
        ↔ 4 < p.technologies.length ∧ n = p.technologies.length - 4) := by
  refine ⟨⟨?_, ?_⟩, ?_, rfl, ?_, ?_⟩
  · intro heq
    by_contra h120
    simp only [createProjectCard, if_neg h120] at heq
    have hd : p.description.data = p.description.data.take 120 ++ "...".data := by
      have := congrArg String.data heq
      simpa using this
    have hlen := congrArg List.length hd
    rw [List.length_append, List.length_take] at hlen
    have h3 : "...".data.length = 3 := by decide
    rw [h3] at hlen
    have h120' : ¬ 120 < p.description.data.length := h120
    omega
  · intro h120
    simp [createProjectCard, if_pos h120]
  · intro hle
    have : ¬ 120 < p.description.length := Nat.not_lt.mpr hle
    simp [createProjectCard, if_neg this]
  · simp only [createProjectCard]
    rw [List.length_take]
    omega
  · intro n
    simp only [createProjectCard]
    split
    · rename_i h4
      simp only [Option.some.injEq]
      constructor
      · intro h
        exact ⟨h4, h.symm⟩
      · intro ⟨_, h⟩
        exact h.symm
    · rename_i h4
      simp only [reduceCtorEq, false_iff, not_and]
      intro h
      exact absurd h h4

/-- Witness for C8: a short description is shown in full, and five
technologies yield a `+1 more` tag. -/
theorem C8_witness :
    (createProjectCard ⟨1, "T", "short", ["a", "b", "c", "d", "e"], none⟩ 0).shortDescription
        = "short"
    ∧ ((createProjectCard ⟨1, "T", "short", ["a", "b", "c", "d", "e"], none⟩ 0).moreTechTag
        = some 1 ↔ 4 < (["a", "b", "c", "d", "e"] : List String).length
          ∧ 1 = (["a", "b", "c", "d", "e"] : List String).length - 4) := by
  refine ⟨(C8_createProjectCard_truncation _ 0).2.1 (by decide),
    (C8_createProjectCard_truncation _ 0).2.2.2.2 1⟩

/-! ## Contact form claims -/

/-- Claim C2: when at least one required field of the submission is missing
or whitespace-only, `handleContactFormSubmit` shows the "This field is
required" message for every such field and returns before the fetch — no
network request is issued. -/
theorem C2_missing_fields_block_submit (v : FormValues) (b0 : ButtonState)
    (o : FormFetchOutcome)
    (hmiss : ∃ f ∈ requiredFields, requiredFieldMissing (v.get f) = true) :
    (handleContactFormSubmit v b0 o).fetchIssued = false
    ∧ ∀ f ∈ requiredFields, requiredFieldMissing (v.get f) = true →
        (f, "This field is required") ∈ (handleContactFormSubmit v b0 o).fieldErrors := by
  obtain ⟨f0, hf0, hm0⟩ := hmiss
  have hfil : f0 ∈ requiredFields.filter fun f => requiredFieldMissing (v.get f) :=
    List.mem_filter.mpr ⟨hf0, hm0⟩
  have hinv : (validateContactForm v).isValid = false := by
    simp only [validateContactForm]
    cases hAe : ((requiredFields.filter fun f => requiredFieldMissing (v.get f)).map
        fun f => (f, "This field is required")).isEmpty with
    | false => simp [hAe]
    | true =>
      rw [List.isEmpty_iff] at hAe
      have : (f0, "This field is required") ∈
          ((requiredFields.filter fun f => requiredFieldMissing (v.get f)).map
            fun f => (f, "This field is required")) :=
        List.mem_map_of_mem _ hfil
      rw [hAe] at this
      simp at this
  constructor
  · simp [handleContactFormSubmit, hinv]
  · intro f hf hm
    simp only [handleContactFormSubmit, hinv, Bool.not_false, if_true]
    simp only [validateContactForm]
    apply List.mem_append_left
    exact List.mem_map_of_mem _ (List.mem_filter.mpr ⟨hf, hm⟩)

/-- Witness for C2: an empty `name` field blocks the fetch and shows its
field-level error. -/
theorem C2_witness :
    (handleContactFormSubmit ⟨some "", some "a@b.c", some "Hi", some "Txt"⟩
        ⟨false, "Send Message"⟩ FormFetchOutcome.ok).fetchIssued = false
    ∧ ("name", "This field is required") ∈
        (handleContactFormSubmit ⟨some "", some "a@b.c", some "Hi", some "Txt"⟩
          ⟨false, "Send Message"⟩ FormFetchOutcome.ok).fieldErrors := by
  obtain ⟨h1, h2⟩ := C2_missing_fields_block_submit
    ⟨some "", some "a@b.c", some "Hi", some "Txt"⟩ ⟨false, "Send Message"⟩
    FormFetchOutcome.ok ⟨"name", by decide, by decide⟩
  exact ⟨h1, h2 "name" (by decide) (by decide)⟩

/-- Claim C9: whenever validation passes, the submit button ends the run
enabled with text "Send Message", whatever the fetch outcome — the `finally`
block always runs `showFormLoading(false)`. -/
theorem C9_submit_button_restored (v : FormValues) (b0 : ButtonState)
    (o : FormFetchOutcome) (hvalid : (validateContactForm v).isValid = true) :
    (handleContactFormSubmit v b0 o).finalButton = ⟨false, "Send Message"⟩ := by
  simp only [handleContactFormSubmit, hvalid, Bool.not_true, Bool.false_eq_true, if_false]
  cases o <;> rfl

/-- Witness for C9: a fully valid submission whose fetch fails on the network
still ends with the button enabled and reading "Send Message". -/
theorem C9_witness :
    (handleContactFormSubmit ⟨some "Ada", some "a@b.c", some "Hi", some "Txt"⟩
        ⟨true, "Sending..."⟩ FormFetchOutcome.networkFailure).finalButton
      = ⟨false, "Send Message"⟩ :=
  C9_submit_button_restored _ _ _ (by decide)

/-! ## Loader claims -/

/-- Claim C3 (amended): every failed projects fetch — network error, non-ok
status, parse failure, or invalid top-level structure — renders the static
error placeholder with its manual "Try Again" button together with the
hard-coded sample project card, and no run of `loadProjects` ever issues more
than its single fetch: the fetch is re-issued only by running `loadProjects`
again, which is exactly what the retry button's onclick does. -/
theorem C3_loadProjects_failure_rendering (prior : GridState Json) (o : FetchOutcome)
    (hfail : loadProjectsDecision o = LoaderDecision.rejected) :
    (loadProjects prior o).grid.items
        = [GridItem.errorNotice, GridItem.card sampleProject]
    ∧ (loadProjects prior o).fetchCount = 1
    ∧ ∀ o', (loadProjects (loadProjects prior o).grid o').fetchCount = 1 := by
  refine ⟨?_, ?_, ?_⟩
  · simp [loadProjects, hfail, showProjectsError]
  · simp [loadProjects, hfail]
  · intro o'
    cases h : loadProjectsDecision o' <;> simp [loadProjects, h]

/-- Witness for C3 at a concrete failed fetch (HTTP 404). -/
theorem C3_witness :
    (loadProjects ⟨[], none⟩ (FetchOutcome.badStatus 404)).grid.items
        = [GridItem.errorNotice, GridItem.card sampleProject]
    ∧ (loadProjects ⟨[], none⟩ (FetchOutcome.badStatus 404)).fetchCount = 1 := by
  obtain ⟨h1, h2, _⟩ :=
    C3_loadProjects_failure_rendering ⟨[], none⟩ (FetchOutcome.badStatus 404) rfl
  exact ⟨h1, h2⟩

/-- Counterexample to C3 as stated: after a failed fetch the grid does not
hold only the static error placeholder — `showProjectsError` also appends a
card for its hard-coded sample project. -/
theorem C3_counterexample :
    ¬ (∀ i ∈ (loadProjects ⟨[], none⟩ FetchOutcome.networkFailure).grid.items,
        i = GridItem.errorNotice) := by
  intro h
  have hmem : GridItem.card sampleProject
      ∈ (loadProjects ⟨[], none⟩ FetchOutcome.networkFailure).grid.items := by
    simp [loadProjects, loadProjectsDecision, showProjectsError]
  have := h _ hmem
  simp at this

/-- Claim C6 (amended): the loaders enforce only the top level of the
expected shape.  `loadProjects` accepts a parsed document exactly when its
`projects` field is an array — whatever the records inside look like — and
rejects any other parsed document; `loadBlogs` applies no shape test of its
own and forwards every parsed document (other than `null`, whose `length`
access throws) to the display step. -/
theorem C6_loaders_shape (data blogs : Json) (xs : List Json) :
    (data.getField "projects" = some (Json.arr xs) →
      loadProjectsDecision (FetchOutcome.parsed data) = LoaderDecision.display xs)
    ∧ ((∀ ys, data.getField "projects" ≠ some (Json.arr ys)) →
      loadProjectsDecision (FetchOutcome.parsed data) = LoaderDecision.rejected)
    ∧ (blogs ≠ Json.null →
      loadBlogsDecision (FetchOutcome.parsed blogs) = LoaderDecision.display blogs) := by
  refine ⟨?_, ?_, ?_⟩
  · intro h
    simp [loadProjectsDecision, h]
  · intro h
    rcases hf : data.getField "projects" with _ | j
    · simp [loadProjectsDecision, hf]
    · cases j with
      | arr ys => exact absurd hf (h ys)
      | null => simp [loadProjectsDecision, hf]
      | bool b => simp [loadProjectsDecision, hf]
      | num n => simp [loadProjectsDecision, hf]
      | str s => simp [loadProjectsDecision, hf]
      | obj fields => simp [loadProjectsDecision, hf]
  · intro h
    cases blogs <;> first | rfl | exact absurd rfl h

/-- Witness for C6: an empty records array inside the wrapper is accepted by
`loadProjects`, and a bare parsed array is forwarded by `loadBlogs`. -/
theorem C6_witness :
    loadProjectsDecision (FetchOutcome.parsed (Json.obj [("projects", Json.arr [])]))
        = LoaderDecision.display []
    ∧ loadBlogsDecision (FetchOutcome.parsed (Json.arr []))
        = LoaderDecision.display (Json.arr []) := by
  refine ⟨(C6_loaders_shape (Json.obj [("projects", Json.arr [])]) Json.null []).1 rfl,
    (C6_loaders_shape Json.null (Json.arr []) []).2.2 (by simp)⟩

/-- Counterexample to C6 as stated: a successfully parsed document whose top
level is an array instead of the wrapper object is rejected by `loadProjects`
on the basis of its shape. -/
theorem C6_counterexample :
    loadProjectsDecision (FetchOutcome.parsed (Json.arr [])) = LoaderDecision.rejected := rfl

/-! ## Blog detail lookup claim -/

/-- Claim C10: `findBlogById` compares the string taken from the URL with
each record's `id` using strict equality and no coercion: a returned record's
`id` is the identical string; a record whose `id` is a number is never
returned; when no record has that exact string id the result is null, and
`displayBlogContent` then renders the "Blog Not Found" message. -/
theorem C10_findBlogById_strict (blogs : List Json) (blogId : String) :
    (∀ b, findBlogById blogId blogs = some b →
      b.getField "id" = some (Json.str blogId))
    ∧ (∀ b k, b ∈ blogs → b.getField "id" = some (Json.num k) →
      findBlogById blogId blogs ≠ some b)
    ∧ ((∀ b ∈ blogs, b.getField "id" ≠ some (Json.str blogId)) →
      findBlogById blogId blogs = none)
    ∧ (findBlogById blogId blogs = none →
      displayBlogContent (findBlogById blogId blogs) = BlogDetailView.notFound) := by
  have key : ∀ b, findBlogById blogId blogs = some b →
      b.getField "id" = some (Json.str blogId) := by
    intro b h
    have hp := List.find?_some h
    rcases hf : b.getField "id" with _ | v
    · simp [idStrictEqString, hf] at hp
    · cases v with
      | str t =>
        simp only [idStrictEqString, hf, jsStrictEqStr, beq_iff_eq] at hp
        rw [hp]
      | null => simp [idStrictEqString, hf, jsStrictEqStr] at hp
      | bool x => simp [idStrictEqString, hf, jsStrictEqStr] at hp
      | num x => simp [idStrictEqString, hf, jsStrictEqStr] at hp
      | arr x => simp [idStrictEqString, hf, jsStrictEqStr] at hp
      | obj x => simp [idStrictEqString, hf, jsStrictEqStr] at hp
  refine ⟨key, ?_, ?_, ?_⟩
  · intro b k _ hid hfind
    have := key b hfind
    rw [hid] at this
    simp at this
  · intro h
    apply List.find?_eq_none.mpr
    intro b hb
    rcases hf : b.getField "id" with _ | v
    · simp [idStrictEqString, hf]
    · cases v with
      | str t =>
        simp only [idStrictEqString, hf, jsStrictEqStr, beq_iff_eq]
        intro heq
        exact h b hb (by rw [hf, heq])
      | null => simp [idStrictEqString, hf, jsStrictEqStr]
      | bool x => simp [idStrictEqString, hf, jsStrictEqStr]
      | num x => simp [idStrictEqString, hf, jsStrictEqStr]
      | arr x => simp [idStrictEqString, hf, jsStrictEqStr]
      | obj x => simp [idStrictEqString, hf, jsStrictEqStr]
  · intro h
    rw [h]
    rfl

/-- Witness for C10: a blog whose JSON `id` is the number `3` is not found by
the URL identifier `"3"`, and an unmatched identifier renders "Blog Not
Found". -/
theorem C10_witness :
    findBlogById "3" [Json.obj [("id", Json.num 3)], Json.obj [("id", Json.str "3")]]
        ≠ some (Json.obj [("id", Json.num 3)])
    ∧ displayBlogContent (findBlogById "7" [Json.obj [("id", Json.num 7)]])
        = BlogDetailView.notFound := by
  constructor
  · exact (C10_findBlogById_strict
      [Json.obj [("id", Json.num 3)], Json.obj [("id", Json.str "3")]] "3").2.1
      (Json.obj [("id", Json.num 3)]) 3 (by simp) rfl
  · have hnone := (C10_findBlogById_strict [Json.obj [("id", Json.num 7)]] "7").2.2.1
      (by
        intro b hb
        simp only [List.mem_singleton] at hb
        subst hb
        simp [Json.getField])
    exact (C10_findBlogById_strict [Json.obj [("id", Json.num 7)]] "7").2.2.2 hnone

/-! ## Lemmas about decimal rendering and `parseInt` -/

theorem digitChar_decDigit {d : Nat} (h : d < 10) : decDigit? (digitChar d) = some d := by
  interval_cases d <;> decide

theorem digitChar_not_special {d : Nat} (h : d < 10) :
    jsWhitespace (digitChar d) = false ∧ digitChar d ≠ '-' ∧ digitChar d ≠ '+' := by
  interval_cases d <;> exact ⟨by decide, by decide, by decide⟩

theorem digitChar_ne_zeroChar {d : Nat} (h : d < 10) (h0 : d ≠ 0) : digitChar d ≠ '0' := by
  interval_cases d
  · exact absurd rfl h0
  all_goals decide

theorem parseIntLoop_map_digitChar (ds : List Nat) (h : ∀ d ∈ ds, d < 10) (acc : Nat) :
    parseIntLoop decDigit? 10 acc (ds.map digitChar)
      = ds.foldl (fun a d => a * 10 + d) acc := by
  induction ds generalizing acc with
  | nil => rfl
  | cons d ds ih =>
    have hd := h d (List.mem_cons_self d ds)
    simp only [List.map_cons, parseIntLoop, digitChar_decDigit hd, List.foldl_cons]
    exact ih (fun x hx => h x (List.mem_cons_of_mem _ hx)) _

theorem foldr_eq_ofDigits (l : List Nat) :
    l.foldr (fun d a => a * 10 + d) 0 = Nat.ofDigits 10 l := by
  induction l with
  | nil => simp [Nat.ofDigits]
  | cons d l ih =>
    simp only [List.foldr_cons, ih, Nat.ofDigits_cons, Nat.cast_id]
    ring

theorem foldl_digits_reverse (n : Nat) :
    ((Nat.digits 10 n).reverse).foldl (fun a d => a * 10 + d) 0 = n := by
  simp only [List.foldl_reverse]
  rw [foldr_eq_ofDigits, Nat.ofDigits_digits]

theorem digits_reverse_head (n : Nat) (h : n ≠ 0) :
    ∃ d ds, (Nat.digits 10 n).reverse = d :: ds ∧ d < 10 ∧ d ≠ 0
      ∧ ∀ x ∈ ds, x < 10 := by
  have hnil : Nat.digits 10 n ≠ [] := Nat.digits_ne_nil_iff_ne_zero.mpr h
  rcases hd : (Nat.digits 10 n).reverse with _ | ⟨d, ds⟩
  · exact absurd (by simpa using congrArg List.reverse hd) hnil
  · have hdm : d ∈ (Nat.digits 10 n).reverse := by rw [hd]; exact List.mem_cons_self d ds
    refine ⟨d, ds, rfl, Nat.digits_lt_base (by norm_num) (List.mem_reverse.mp hdm), ?_, ?_⟩
    · have h1 : (Nat.digits 10 n).getLast? = some d := by
        rw [← List.head?_reverse, hd]
        rfl
      have h2 : (Nat.digits 10 n).getLast? = some ((Nat.digits 10 n).getLast hnil) :=
        List.getLast?_eq_getLast _ hnil
      rw [h1] at h2
      have h3 := Nat.getLast_digit_ne_zero 10 h
      injection h2 with h2
      rw [h2]
      exact h3
    · intro x hx
      have : x ∈ (Nat.digits 10 n).reverse := by rw [hd]; exact List.mem_cons_of_mem _ hx
      exact Nat.digits_lt_base (by norm_num) (List.mem_reverse.mp this)

theorem parse_magnitude_digits (n : Nat) (h : n ≠ 0) :
    (match stripHexPrefix? (((Nat.digits 10 n).reverse).map digitChar) with
     | some rest => parseDigits hexDigit? 16 rest
     | none => parseDigits decDigit? 10 (((Nat.digits 10 n).reverse).map digitChar))
      = some n := by
  obtain ⟨d, ds, hd, hd10, hd0, hds⟩ := digits_reverse_head n h
  have hmap : ((Nat.digits 10 n).reverse).map digitChar = digitChar d :: ds.map digitChar := by
    rw [hd]
    rfl
  have hhex : stripHexPrefix? (digitChar d :: ds.map digitChar) = none := by
    cases hds' : ds.map digitChar with
    | nil => rfl
    | cons e es =>
      simp only [stripHexPrefix?]
      rw [if_neg]
      intro hcon
      exact digitChar_ne_zeroChar hd10 hd0 hcon.1
  rw [hmap, hhex]
  simp only [parseDigits, digitChar_decDigit hd10]
  rw [parseIntLoop_map_digitChar ds hds d]
  have hfold := foldl_digits_reverse n
  rw [hd, List.foldl_cons] at hfold
  simpa using hfold

theorem parseIntJS_mk_digits (n : Nat) (h : n ≠ 0) :
    parseIntJS (String.mk (((Nat.digits 10 n).reverse).map digitChar)) = some (n : Int) := by
  obtain ⟨d, ds, hd, hd10, hd0, hds⟩ := digits_reverse_head n h
  have hmap : ((Nat.digits 10 n).reverse).map digitChar = digitChar d :: ds.map digitChar := by
    rw [hd]
    rfl
  have hdata : (String.mk (((Nat.digits 10 n).reverse).map digitChar)).data
      = digitChar d :: ds.map digitChar := hmap
  simp only [parseIntJS, hdata]
  rw [hmap, List.dropWhile_cons, if_neg (by simp [(digitChar_not_special hd10).1])]
  simp only [splitSign, if_neg (digitChar_not_special hd10).2.1,
    if_neg (digitChar_not_special hd10).2.2]
  rw [← hmap]
  rw [parse_magnitude_digits n h]
  simp

/-- The decimal string JS writes for a nonzero natural is made of the
reversed digit list. -/
theorem natToDecimal_of_ne_zero (n : Nat) (h : n ≠ 0) :
    natToDecimal n = String.mk (((Nat.digits 10 n).reverse).map digitChar) := by
  simp [natToDecimal, h]

/-- `parseInt` inverts the JS number-to-string coercion: the detail page
recovers exactly the id the overview page stored. -/
theorem parseIntJS_jsNumToString (i : Int) : parseIntJS (jsNumToString i) = some i := by
  rcases lt_trichotomy i 0 with hneg | hzero | hpos
  · rw [jsNumToString, if_pos hneg]
    have hm : i.natAbs ≠ 0 := by omega
    rw [natToDecimal_of_ne_zero _ hm]
    obtain ⟨d, ds, hd, hd10, hd0, hds⟩ := digits_reverse_head i.natAbs hm
    have hmap : ((Nat.digits 10 i.natAbs).reverse).map digitChar
        = digitChar d :: ds.map digitChar := by
      rw [hd]
      rfl
    have hdata : ("-" ++ String.mk (((Nat.digits 10 i.natAbs).reverse).map digitChar)).data
        = '-' :: digitChar d :: ds.map digitChar := by
      rw [show ("-" ++ String.mk (((Nat.digits 10 i.natAbs).reverse).map digitChar)).data
          = '-' :: ((Nat.digits 10 i.natAbs).reverse).map digitChar by simp, hmap]
    simp only [parseIntJS, hdata]
    rw [List.dropWhile_cons, if_neg (by decide)]
    have hsplit : splitSign ('-' :: digitChar d :: List.map digitChar ds)
        = (-1, digitChar d :: List.map digitChar ds) := by
      simp [splitSign]
    rw [hsplit, ← hmap, parse_magnitude_digits i.natAbs hm]
    simp
    rw [abs_of_neg hneg]
    ring
  · subst hzero
    decide
  · rw [jsNumToString, if_neg (by omega)]
    have hm : i.toNat ≠ 0 := by omega
    rw [natToDecimal_of_ne_zero _ hm]
    rw [parseIntJS_mk_digits _ hm]
    congr 1
    omega

/-- The stored id string is never empty (so it is truthy on the detail
page). -/
theorem jsNumToString_ne_empty (i : Int) : jsNumToString i ≠ "" := by
  rw [jsNumToString]
  split
  · intro hcon
    have := congrArg String.data hcon
    simp at this
  · rw [natToDecimal]
    split
    · decide
    · intro hcon
      have := congrArg String.data hcon
      rename_i hz
      simp [Nat.digits_ne_nil_iff_ne_zero.mpr hz] at this

/-- The concrete rendering of the id `2` (for the witness below). -/
theorem jsNumToString_two : jsNumToString 2 = "2" := by
  rw [jsNumToString, if_neg (by omega), show (2 : Int).toNat = 2 from rfl,
    natToDecimal_of_ne_zero 2 (by omega)]
  rw [Nat.digits_def' (by norm_num : (1 : ℕ) < 10) (by norm_num : (0 : ℕ) < 2)]
  norm_num
  decide

/-- Claim C5: the overview page hands exactly one identifier to the detail
page through session storage — `navigateToProjectDetail` stores the id under
`selectedProjectId` and navigates to the detail page; the detail page
initializer reads that same key, `parseInt`s it back to the very same id, and
selects the record whose `id` strictly equals it; with nothing stored it
shows the error and redirects to the overview page. -/
theorem C5_sessionStorage_handoff (pid : Int) (st : SessionStorage)
    (o : FetchOutcome) (data : Json) (projects : List Json)
    (hproj : data.getField "projects" = some (Json.arr projects)) :
    (navigateToProjectDetail pid st).storage.getItem "selectedProjectId"
        = some (jsNumToString pid)
    ∧ (navigateToProjectDetail pid st).href = "./project-detail.html"
    ∧ parseIntJS (jsNumToString pid) = some pid
    ∧ initializeProjectDetailPage (navigateToProjectDetail pid st).storage o
        = { view := loadProjectDetails (some pid) o, redirectTarget := none }
    ∧ (∀ p, loadProjectDetails (some pid) (FetchOutcome.parsed data)
          = DetailPageView.projectDetails p →
        p.getField "id" = some (Json.num pid) ∧ p ∈ projects)
    ∧ initializeProjectDetailPage [] o
        = { view := DetailPageView.errorView
              "No project selected. Redirecting to portfolio..."
            redirectTarget := some "./index.html" } := by
  have hget : (navigateToProjectDetail pid st).storage.getItem "selectedProjectId"
      = some (jsNumToString pid) := by
    simp [navigateToProjectDetail, SessionStorage.setItem, SessionStorage.getItem,
      List.lookup]
  refine ⟨hget, rfl, parseIntJS_jsNumToString pid, ?_, ?_, rfl⟩
  · simp only [initializeProjectDetailPage, hget]
    rw [if_neg (jsNumToString_ne_empty pid), parseIntJS_jsNumToString pid]
  · intro p hp
    simp only [loadProjectDetails, hproj] at hp
    rcases hf : projects.find? (fun q => idMatches q (some pid)) with _ | q
    · rw [hf] at hp
      simp at hp
    · rw [hf] at hp
      simp only [DetailPageView.projectDetails.injEq] at hp
      have hpred := List.find?_some hf
      have hmem := List.mem_of_find?_eq_some hf
      rw [← hp]
      constructor
      · rcases hid : q.getField "id" with _ | v
        · simp [idMatches, hid] at hpred
        · cases v with
          | num k =>
            simp only [idMatches, hid, beq_iff_eq] at hpred
            rw [hpred]
          | null => simp [idMatches, hid] at hpred
          | bool b => simp [idMatches, hid] at hpred
          | str s => simp [idMatches, hid] at hpred
          | arr a => simp [idMatches, hid] at hpred
          | obj f => simp [idMatches, hid] at hpred
      · exact hmem

/-- Witness for C5 at id 2: the stored value is the string `"2"`, it parses
back to `2`, and an empty session storage redirects to the overview page. -/
theorem C5_witness :
    (navigateToProjectDetail 2 []).storage.getItem "selectedProjectId" = some "2"
    ∧ parseIntJS "2" = some 2
    ∧ (initializeProjectDetailPage [] FetchOutcome.networkFailure).redirectTarget
        = some "./index.html" := by
  obtain ⟨h1, _, h3, _, _, h6⟩ := C5_sessionStorage_handoff 2 [] FetchOutcome.networkFailure
    (Json.obj [("projects", Json.arr [])]) [] rfl
  rw [jsNumToString_two] at h1 h3
  exact ⟨h1, h3, by rw [h6]⟩

/-! ## Lemmas for the markdown converter -/

theorem mdPlain_ne {c : Char} (h : mdPlain c = true) :
    c ≠ '#' ∧ c ≠ '*' ∧ c ≠ '`' ∧ c ≠ '\n' ∧ c ≠ '\r' ∧ c ≠ '[' ∧ c ≠ ']'
      ∧ c ≠ '(' ∧ c ≠ ')' ∧ c ≠ '<' ∧ c ≠ '>' ∧ c ≠ '-' ∧ c ≠ '.' := by
  simp [mdPlain] at h
  tauto

theorem plain_notMem {t : List Char} (h : ∀ c ∈ t, mdPlain c = true) {x : Char}
    (hx : mdPlain x = false) : x ∉ t := by
  intro hmem
  rw [h x hmem] at hx
  cases hx

theorem plain_getLast_ne {t : List Char} (h : ∀ c ∈ t, mdPlain c = true) {x : Char}
    (hx : mdPlain x = false) : t.getLast? ≠ some x := by
  intro he
  exact plain_notMem h hx (List.mem_of_mem_getLast? he)

theorem notMem_append {x : Char} {a b : List Char} (ha : x ∉ a) (hb : x ∉ b) :
    x ∉ a ++ b := by
  simp [List.mem_append]
  exact ⟨ha, hb⟩

theorem notMem_cons {x c : Char} {l : List Char} (hc : x ≠ c) (hl : x ∉ l) :
    x ∉ c :: l := by
  simp
  exact ⟨hc, hl⟩

theorem splitOnChar_of_notMem {sep : Char} {l : List Char} (h : sep ∉ l) :
    splitOnChar sep l = [l] := by
  induction l with
  | nil => rfl
  | cons c rest ih =>
    have hc : ¬ c = sep := by
      intro e
      exact h (e ▸ List.mem_cons_self c rest)
    rw [splitOnChar, if_neg hc, ih fun hm => h (List.mem_cons_of_mem _ hm)]

theorem splitOnChar_append {sep : Char} {a : List Char} (b : List Char) (h : sep ∉ a) :
    splitOnChar sep (a ++ sep :: b) = a :: splitOnChar sep b := by
  induction a with
  | nil => simp [splitOnChar]
  | cons c a' ih =>
    have hc : ¬ c = sep := by
      intro e
      exact h (e ▸ List.mem_cons_self c a')
    rw [List.cons_append, splitOnChar, if_neg hc,
      ih fun hm => h (List.mem_cons_of_mem _ hm)]

theorem joinLines_cons (l : List Char) (ls : List (List Char)) (h : ls ≠ []) :
    joinLines (l :: ls) = l ++ '\n' :: joinLines ls := by
  cases ls with
  | nil => exact absurd rfl h
  | cons l' ls' => rfl

/-- A line map applied to a newline-free string acts on the whole string. -/
theorem lineMap_single (f : List Char → List Char) (l : List Char) (h : '\n' ∉ l) :
    joinLines ((splitLines l).map f) = f l := by
  show joinLines ((splitOnChar '\n' l).map f) = f l
  rw [splitOnChar_of_notMem h]
  rfl

theorem headerLine_cons_ne (c : Char) (rest : List Char) (h : c ≠ '#') :
    headerLine (c :: rest) = c :: rest := by
  have hb : ('#' == c) = false := beq_eq_false_iff_ne.mpr fun e => h e.symm
  simp [headerLine, startsWith, hb]

theorem headerLine_plain {line : List Char} (h : ∀ c ∈ line, mdPlain c = true) :
    headerLine line = line := by
  cases line with
  | nil => rfl
  | cons c rest =>
    exact headerLine_cons_ne c rest (mdPlain_ne (h c (List.mem_cons_self c rest))).1

theorem hasPair_eq_false_of_notMem {x y : Char} {l : List Char} (h : x ∉ l) :
    hasPair x y l = false := by
  induction l with
  | nil => rfl
  | cons c rest ih =>
    have hc : (c == x) = false :=
      beq_eq_false_iff_ne.mpr fun e => h (e ▸ List.mem_cons_self c rest)
    simp only [hasPair, hc, Bool.false_and, Bool.false_or]
    exact ih fun hm => h (List.mem_cons_of_mem _ hm)

theorem hasPair_append_false {x y : Char} {a b : List Char}
    (ha : hasPair x y a = false) (hb : hasPair x y b = false)
    (hbd : a.getLast? ≠ some x ∨ b.head? ≠ some y) :
    hasPair x y (a ++ b) = false := by
  induction a with
  | nil => simpa using hb
  | cons c a' ih =>
    simp only [hasPair, Bool.or_eq_false_iff] at ha
    simp only [List.cons_append, hasPair, Bool.or_eq_false_iff, List.append_eq]
    constructor
    · cases a' with
      | nil =>
        rcases hbd with hbd | hbd
        · have hcx : (c == x) = false := by
            simp only [List.getLast?_singleton] at hbd
            exact beq_eq_false_iff_ne.mpr fun e => hbd (by rw [e])
          simp [hcx]
        · have hby : ((b.head?) == some y) = false :=
            beq_eq_false_iff_ne.mpr hbd
          simp [hby]
      | cons d a'' =>
        simp only [List.cons_append, List.head?_cons]
        have h1 := ha.1
        simp only [List.head?_cons] at h1
        exact h1
    · refine ih ha.2 ?_
      cases a' with
      | nil =>
        left
        simp
      | cons d a'' =>
        rcases hbd with hbd | hbd
        · left
          rwa [List.getLast?_cons_cons] at hbd
        · right
          exact hbd

theorem hasPair_wrap {pre post : List Char} (mid : List Char)
    (hpre : hasPair '<' 'l' pre = false) (hpost : hasPair '<' 'l' post = false)
    (hprelast : pre.getLast? ≠ some '<')
    (hmid : ∀ c ∈ mid, mdPlain c = true) :
    hasPair '<' 'l' (pre ++ (mid ++ post)) = false := by
  apply hasPair_append_false hpre _ (Or.inl hprelast)
  apply hasPair_append_false (hasPair_eq_false_of_notMem (plain_notMem hmid (by decide)))
    hpost (Or.inl (plain_getLast_ne hmid (by decide)))

theorem boldScan_of_notMem {l : List Char} (h : '*' ∉ l) : boldScan l = l := by
  induction l with
  | nil => simp [boldScan]
  | cons a rest ih =>
    have ha : a ≠ '*' := fun e => h (e ▸ List.mem_cons_self a rest)
    rw [boldScan, dif_neg fun hc => ha hc.1,
      ih fun hm => h (List.mem_cons_of_mem _ hm)]

theorem italicScan_of_notMem {l : List Char} (h : '*' ∉ l) : italicScan l = l := by
  induction l with
  | nil => simp [italicScan]
  | cons a rest ih =>
    have ha : ¬ a = '*' := fun e => h (e ▸ List.mem_cons_self a rest)
    rw [italicScan, if_neg ha, ih fun hm => h (List.mem_cons_of_mem _ hm)]

theorem fenceScan_of_notMem {l : List Char} (h : '`' ∉ l) : fenceScan l = l := by
  induction l with
  | nil => simp [fenceScan]
  | cons a rest ih =>
    have ha : a ≠ '`' := fun e => h (e ▸ List.mem_cons_self a rest)
    rw [fenceScan, if_neg fun hc => ha hc.1,
      ih fun hm => h (List.mem_cons_of_mem _ hm)]

theorem codeScan_of_notMem {l : List Char} (h : '`' ∉ l) : codeScan l = l := by
  induction l with
  | nil => simp [codeScan]
  | cons a rest ih =>
    have ha : ¬ a = '`' := fun e => h (e ▸ List.mem_cons_self a rest)
    rw [codeScan, if_neg ha, ih fun hm => h (List.mem_cons_of_mem _ hm)]

theorem paraScan_of_notMem {l : List Char} (h : '\n' ∉ l) : paraScan l = l := by
  induction l with
  | nil => simp [paraScan]
  | cons a rest ih =>
    have ha : a ≠ '\n' := fun e => h (e ▸ List.mem_cons_self a rest)
    rw [paraScan, if_neg fun hc => ha hc.1,
      ih fun hm => h (List.mem_cons_of_mem _ hm)]

theorem linkScan_of_notMem {l : List Char} (h : '[' ∉ l) : linkScan l = l := by
  induction l with
  | nil => simp [linkScan]
  | cons a rest ih =>
    have ha : ¬ a = '[' := fun e => h (e ▸ List.mem_cons_self a rest)
    rw [linkScan, if_neg ha, ih fun hm => h (List.mem_cons_of_mem _ hm)]

theorem paraScan_append_of_notMem {a : List Char} (s : List Char) (h : '\n' ∉ a) :
    paraScan (a ++ s) = a ++ paraScan s := by
  induction a with
  | nil => rfl
  | cons c a' ih =>
    have hc : c ≠ '\n' := fun e => h (e ▸ List.mem_cons_self c a')
    rw [List.cons_append, paraScan, if_neg fun hcon => hc hcon.1,
      ih fun hm => h (List.mem_cons_of_mem _ hm)]
    rfl

theorem paraScan_break (b : List Char) :
    paraScan ('\n' :: '\n' :: b) = "</p><p>".data ++ paraScan b := by
  rw [paraScan, if_pos ⟨rfl, rfl⟩]
  rfl

theorem findBoldCloseIdx_spec {t : List Char} (u : List Char)
    (ht : ∀ c ∈ t, c ≠ '*' ∧ c ≠ '\n') :
    findBoldCloseIdx (t ++ '*' :: '*' :: u) = some t.length := by
  induction t with
  | nil => rfl
  | cons c t' ih =>
    have hc := ht c (List.mem_cons_self c t')
    rw [List.cons_append, findBoldCloseIdx, if_neg fun hcon => hc.1 hcon.1,
      if_neg hc.2, ih fun x hx => ht x (List.mem_cons_of_mem _ hx)]
    rfl

theorem findDelimCloseIdx_spec {delim : Char} {t : List Char} (u : List Char)
    (hd : delim ≠ '\n') (ht : ∀ c ∈ t, c ≠ delim ∧ c ≠ '\n') :
    findDelimCloseIdx delim (t ++ delim :: u) = some t.length := by
  induction t with
  | nil =>
    rw [List.nil_append, findDelimCloseIdx, if_pos rfl]
    rfl
  | cons c t' ih =>
    have hc := ht c (List.mem_cons_self c t')
    rw [List.cons_append, findDelimCloseIdx, if_neg hc.1, if_neg hc.2,
      ih fun x hx => ht x (List.mem_cons_of_mem _ hx)]
    rfl

theorem findTripleCloseIdx_spec {t : List Char} (u : List Char)
    (ht : ∀ c ∈ t, c ≠ '`') :
    findTripleCloseIdx (t ++ '`' :: '`' :: '`' :: u) = some t.length := by
  induction t with
  | nil =>
    rw [List.nil_append, findTripleCloseIdx, if_pos ⟨rfl, rfl⟩]
    rfl
  | cons c t' ih =>
    have hc := ht c (List.mem_cons_self c t')
    rw [List.cons_append, findTripleCloseIdx, if_neg fun hcon => hc hcon.1,
      ih fun x hx => ht x (List.mem_cons_of_mem _ hx)]
    rfl

theorem findUntilIdx_spec {stop : Char} {t : List Char} (u : List Char)
    (ht : ∀ c ∈ t, c ≠ stop) :
    findUntilIdx stop (t ++ stop :: u) = some t.length := by
  induction t with
  | nil =>
    rw [List.nil_append, findUntilIdx, if_pos rfl]
    rfl
  | cons c t' ih =>
    have hc := ht c (List.mem_cons_self c t')
    rw [List.cons_append, findUntilIdx, if_neg hc,
      ih fun x hx => ht x (List.mem_cons_of_mem _ hx)]
    rfl

theorem boldScan_of_noPair {l : List Char} (h : hasPair '*' '*' l = false) :
    boldScan l = l := by
  induction l with
  | nil => simp [boldScan]
  | cons a rest ih =>
    simp only [hasPair, Bool.or_eq_false_iff] at h
    have hcond : ¬ (a = '*' ∧ rest.head? = some '*') := by
      intro ⟨e1, e2⟩
      have h1 := h.1
      rw [e1, e2] at h1
      simp at h1
    rw [boldScan, dif_neg hcond, ih h.2]

theorem fenceScan_of_noPair {l : List Char} (h : hasPair '`' '`' l = false) :
    fenceScan l = l := by
  induction l with
  | nil => simp [fenceScan]
  | cons a rest ih =>
    simp only [hasPair, Bool.or_eq_false_iff] at h
    have hcond : ¬ (a = '`' ∧ rest.take 2 = ['`', '`']) := by
      intro ⟨e1, e2⟩
      have hh : rest.head? = some '`' := by
        cases rest with
        | nil => simp at e2
        | cons b bs =>
          simp [List.take_succ_cons] at e2
          rw [e2.1]
          rfl
      have h1 := h.1
      rw [e1, hh] at h1
      simp at h1
    rw [fenceScan, if_neg hcond, ih h.2]

theorem boldScan_strong {t : List Char} (ht : ∀ c ∈ t, c ≠ '*' ∧ c ≠ '\n') :
    boldScan ('*' :: '*' :: (t ++ ['*', '*']))
      = "<strong>".data ++ t ++ "</strong>".data := by
  rw [boldScan, dif_pos ⟨rfl, rfl⟩]
  simp only [List.tail_cons, findBoldCloseIdx_spec [] ht, List.take_left,
    List.drop_append 2]
  simp [boldScan]

theorem italicScan_em {t : List Char} (ht : ∀ c ∈ t, c ≠ '*' ∧ c ≠ '\n') :
    italicScan ('*' :: (t ++ ['*'])) = "<em>".data ++ t ++ "</em>".data := by
  rw [italicScan, if_pos rfl]
  simp only [findDelimCloseIdx_spec [] (by decide) ht, List.take_left,
    List.drop_append 1]
  simp [italicScan]

theorem codeScan_code {t : List Char} (ht : ∀ c ∈ t, c ≠ '`' ∧ c ≠ '\n') :
    codeScan ('`' :: (t ++ ['`'])) = "<code>".data ++ t ++ "</code>".data := by
  rw [codeScan, if_pos rfl]
  simp only [findDelimCloseIdx_spec [] (by decide) ht, List.take_left,
    List.drop_append 1]
  simp [codeScan]

theorem fenceScan_block {t : List Char} (ht : ∀ c ∈ t, c ≠ '`') :
    fenceScan ('`' :: '`' :: '`' :: '\n' :: (t ++ ['`', '`', '`']))
      = "<pre><code class=\"language-\">".data ++ t ++ "</code></pre>".data := by
  rw [fenceScan.eq_def]
  simp only [List.take_succ_cons, List.take_zero, List.drop_succ_cons, List.drop_zero,
    List.takeWhile_cons, List.dropWhile_cons, List.head?_cons, List.tail_cons,
    isWordChar, Char.isAlphanum]
  simp only [show ('\n'.isAlpha || '\n'.isDigit || '\n' == '_') = false from by decide,
    Bool.false_eq_true, if_false, and_self, if_true, List.head?_cons, List.tail_cons]
  simp only [findTripleCloseIdx_spec [] ht, List.take_left, List.drop_append 3]
  simp [fenceScan]

theorem linkScan_anchor {t u : List Char} (htne : t ≠ []) (hune : u ≠ [])
    (ht : ']' ∉ t) (hu : ')' ∉ u) :
    linkScan ('[' :: (t ++ ']' :: '(' :: (u ++ [')'])))
      = "<a href=\"".data ++ u ++
          "\" target=\"_blank\" rel=\"noopener noreferrer\">".data ++
          t ++ "</a>".data := by
  rw [linkScan, if_pos rfl]
  have hspec1 : findUntilIdx ']' (t ++ ']' :: '(' :: (u ++ [')'])) = some t.length :=
    findUntilIdx_spec _ fun c hc e => ht (e ▸ hc)
  simp only [hspec1, List.take_left, List.drop_append 1, List.drop_succ_cons,
    List.drop_zero]
  rw [if_pos ⟨htne, rfl⟩]
  simp only [List.tail_cons]
  have hspec2 : findUntilIdx ')' (u ++ [')']) = some u.length := by
    have : (u ++ [')']) = u ++ ')' :: [] := rfl
    rw [this]
    exact findUntilIdx_spec _ fun c hc e => hu (e ▸ hc)
  simp only [hspec2, List.take_left, List.drop_append 1]
  rw [if_pos hune]
  simp [linkScan]

theorem dashLine_of_head_ne {l : List Char} (h : ∀ hd, l.head? = some hd → hd ≠ '-') :
    dashLine l = l := by
  cases l with
  | nil => rfl
  | cons c rest =>
    have hc := h c rfl
    have hb : ('-' == c) = false := beq_eq_false_iff_ne.mpr fun e => hc e.symm
    simp [dashLine, startsWith, hb]

theorem olLine_of_head_not_digit {l : List Char}
    (h : (l.head?.map Char.isDigit).getD false = false) : olLine l = l := by
  simp only [olLine]
  rw [if_neg]
  intro hc
  rw [h] at hc
  simp at hc

theorem olLine_of_plain_append {t : List Char} (rest : List Char)
    (ht : ∀ c ∈ t, mdPlain c = true) (hr : rest.head? = some '<') :
    olLine (t ++ rest) = t ++ rest := by
  simp only [olLine]
  rw [if_neg]
  intro ⟨h1, h2⟩
  rw [List.dropWhile_append] at h2
  split at h2
  · cases rest with
    | nil => simp at hr
    | cons r rs =>
      simp only [List.head?_cons, Option.some.injEq] at hr
      subst hr
      rw [List.dropWhile_cons, if_neg (by decide)] at h2
      simp [startsWith] at h2
  · rename_i hne
    cases hdw : t.dropWhile Char.isDigit with
    | nil => rw [hdw] at hne; simp at hne
    | cons c0 cs =>
      have hc0 : c0 ∈ t := (List.dropWhile_sublist _).subset (hdw ▸ List.mem_cons_self c0 cs)
      have : c0 ≠ '.' := (mdPlain_ne (ht c0 hc0)).2.2.2.2.2.2.2.2.2.2.2.2
      rw [hdw] at h2
      simp [startsWith, beq_eq_false_iff_ne.mpr fun e => this e.symm] at h2

theorem startsWith_li_head {c : Char} {rest : List Char}
    (h : startsWith "<li>".data (c :: rest) = true) :
    c = '<' ∧ rest.head? = some 'l' := by
  cases rest with
  | nil => simp [startsWith] at h
  | cons d rs =>
    simp only [show "<li>".data = '<' :: 'l' :: 'i' :: '>' :: [] from rfl,
      startsWith, Bool.and_eq_true, beq_iff_eq] at h
    exact ⟨h.1.symm, by rw [← h.2.1]; rfl⟩

theorem indexOfSub?_li_none {l : List Char} (h : hasPair '<' 'l' l = false) :
    indexOfSub? "<li>".data l = none := by
  induction l with
  | nil => rfl
  | cons c rest ih =>
    simp only [hasPair, Bool.or_eq_false_iff] at h
    have hsw : startsWith "<li>".data (c :: rest) = false := by
      cases hs : startsWith "<li>".data (c :: rest)
      · rfl
      · obtain ⟨hc, hh⟩ := startsWith_li_head hs
        have h1 := h.1
        rw [hc, hh] at h1
        simp at h1
    rw [indexOfSub?, if_neg (by simp [hsw]), ih h.2]
    rfl

theorem ulWrap_of_noPair {l : List Char} (h : hasPair '<' 'l' l = false) :
    ulWrap l = l := by
  simp only [ulWrap, indexOfSub?_li_none h]

theorem headerLine_h1 (t : List Char) :
    headerLine ('#' :: ' ' :: t) = "<h1>".data ++ t ++ "</h1>".data := by
  simp [headerLine, startsWith]

theorem headerLine_h2 (t : List Char) :
    headerLine ('#' :: '#' :: ' ' :: t) = "<h2>".data ++ t ++ "</h2>".data := by
  simp [headerLine, startsWith]

theorem headerLine_h3 (t : List Char) :
    headerLine ('#' :: '#' :: '#' :: ' ' :: t) = "<h3>".data ++ t ++ "</h3>".data := by
  simp [headerLine, startsWith]

theorem headerLine_of_plain_ne_nil {t : List Char} (rest : List Char) (htne : t ≠ [])
    (ht : ∀ c ∈ t, mdPlain c = true) : headerLine (t ++ rest) = t ++ rest := by
  cases t with
  | nil => exact absurd rfl htne
  | cons c t' =>
    rw [List.cons_append]
    exact headerLine_cons_ne c (t' ++ rest)
      (mdPlain_ne (ht c (List.mem_cons_self c t'))).1

theorem dashLine_of_head_eq {l : List Char} {c : Char} (h : l.head? = some c)
    (hc : c ≠ '-') : dashLine l = l := by
  apply dashLine_of_head_ne
  intro hd he
  rw [h] at he
  injection he with he
  rw [← he]
  exact hc

theorem olLine_of_head_eq {l : List Char} {c : Char} (h : l.head? = some c)
    (hc : c.isDigit = false) : olLine l = l := by
  apply olLine_of_head_not_digit
  rw [h]
  simpa using hc

theorem dashLine_of_plain_ne_nil {t : List Char} (rest : List Char) (htne : t ≠ [])
    (ht : ∀ c ∈ t, mdPlain c = true) : dashLine (t ++ rest) = t ++ rest := by
  cases t with
  | nil => exact absurd rfl htne
  | cons c t' =>
    exact dashLine_of_head_eq (l := (c :: t') ++ rest) rfl
      (mdPlain_ne (ht c (List.mem_cons_self c t'))).2.2.2.2.2.2.2.2.2.2.2.1

theorem hasPair_cons_of_ne {x y c : Char} {l : List Char}
    (hhead : l.head? ≠ some y ∨ c ≠ x) (hrest : hasPair x y l = false) :
    hasPair x y (c :: l) = false := by
  simp only [hasPair, Bool.or_eq_false_iff]
  refine ⟨?_, hrest⟩
  rcases hhead with hh | hh
  · have : (l.head? == some y) = false := beq_eq_false_iff_ne.mpr hh
    simp [this]
  · have : (c == x) = false := beq_eq_false_iff_ne.mpr hh
    simp [this]

/-- A tag-wrapped single-line output `pre ++ t ++ post` is left unchanged by
every pass from the bold pass to the link pass. -/
theorem inert_wrapped (pre post t : List Char)
    (ht : ∀ c ∈ t, mdPlain c = true)
    (hpre : '*' ∉ pre ∧ '`' ∉ pre ∧ '\n' ∉ pre ∧ '[' ∉ pre)
    (hpost : '*' ∉ post ∧ '`' ∉ post ∧ '\n' ∉ post ∧ '[' ∉ post)
    (hpairpre : hasPair '<' 'l' pre = false) (hpairpost : hasPair '<' 'l' post = false)
    (hlast : pre.getLast? ≠ some '<') (hhead : pre.head? = some '<') :
    boldScan (pre ++ t ++ post) = pre ++ t ++ post
    ∧ italicScan (pre ++ t ++ post) = pre ++ t ++ post
    ∧ fenceScan (pre ++ t ++ post) = pre ++ t ++ post
    ∧ codeScan (pre ++ t ++ post) = pre ++ t ++ post
    ∧ paraScan (pre ++ t ++ post) = pre ++ t ++ post
    ∧ joinLines ((splitLines (pre ++ t ++ post)).map dashLine) = pre ++ t ++ post
    ∧ ulWrap (pre ++ t ++ post) = pre ++ t ++ post
    ∧ joinLines ((splitLines (pre ++ t ++ post)).map olLine) = pre ++ t ++ post
    ∧ linkScan (pre ++ t ++ post) = pre ++ t ++ post := by
  have hstar : '*' ∉ pre ++ t ++ post :=
    notMem_append (notMem_append hpre.1 (plain_notMem ht (by decide))) hpost.1
  have htick : '`' ∉ pre ++ t ++ post :=
    notMem_append (notMem_append hpre.2.1 (plain_notMem ht (by decide))) hpost.2.1
  have hnl : '\n' ∉ pre ++ t ++ post :=
    notMem_append (notMem_append hpre.2.2.1 (plain_notMem ht (by decide))) hpost.2.2.1
  have hlb : '[' ∉ pre ++ t ++ post :=
    notMem_append (notMem_append hpre.2.2.2 (plain_notMem ht (by decide))) hpost.2.2.2
  have hheadA : (pre ++ t ++ post).head? = some '<' := by
    cases pre with
    | nil => simp at hhead
    | cons c p =>
      simp only [List.head?_cons] at hhead
      simp only [List.cons_append, List.head?_cons]
      exact hhead
  have hpairo : hasPair '<' 'l' (pre ++ t ++ post) = false := by
    rw [List.append_assoc]
    exact hasPair_wrap t hpairpre hpairpost hlast ht
  refine ⟨boldScan_of_notMem hstar, italicScan_of_notMem hstar,
    fenceScan_of_notMem htick, codeScan_of_notMem htick, paraScan_of_notMem hnl,
    ?_, ulWrap_of_noPair hpairo, ?_, linkScan_of_notMem hlb⟩
  · rw [lineMap_single _ _ hnl, dashLine_of_head_eq hheadA (by decide)]
  · rw [lineMap_single _ _ hnl, olLine_of_head_eq hheadA (by decide)]

theorem md_h1 (t : List Char) (ht : ∀ c ∈ t, mdPlain c = true) :
    convertMarkdownToHTMLChars ('#' :: ' ' :: t)
      = "<h1>".data ++ t ++ "</h1>".data := by
  have hnl0 : '\n' ∉ '#' :: ' ' :: t :=
    notMem_cons (by decide) (notMem_cons (by decide) (plain_notMem ht (by decide)))
  obtain ⟨b, i, f, c, p, d, u, o, lk⟩ := inert_wrapped "<h1>".data "</h1>".data t ht
    ⟨by decide, by decide, by decide, by decide⟩
    ⟨by decide, by decide, by decide, by decide⟩
    (by decide) (by decide) (by decide) rfl
  simp only [convertMarkdownToHTMLChars]
  rw [lineMap_single _ _ hnl0, headerLine_h1, b, i, f, c, p, d, u, o, lk]

theorem md_h2 (t : List Char) (ht : ∀ c ∈ t, mdPlain c = true) :
    convertMarkdownToHTMLChars ('#' :: '#' :: ' ' :: t)
      = "<h2>".data ++ t ++ "</h2>".data := by
  have hnl0 : '\n' ∉ '#' :: '#' :: ' ' :: t :=
    notMem_cons (by decide) (notMem_cons (by decide)
      (notMem_cons (by decide) (plain_notMem ht (by decide))))
  obtain ⟨b, i, f, c, p, d, u, o, lk⟩ := inert_wrapped "<h2>".data "</h2>".data t ht
    ⟨by decide, by decide, by decide, by decide⟩
    ⟨by decide, by decide, by decide, by decide⟩
    (by decide) (by decide) (by decide) rfl
  simp only [convertMarkdownToHTMLChars]
  rw [lineMap_single _ _ hnl0, headerLine_h2, b, i, f, c, p, d, u, o, lk]

theorem md_h3 (t : List Char) (ht : ∀ c ∈ t, mdPlain c = true) :
    convertMarkdownToHTMLChars ('#' :: '#' :: '#' :: ' ' :: t)
      = "<h3>".data ++ t ++ "</h3>".data := by
  have hnl0 : '\n' ∉ '#' :: '#' :: '#' :: ' ' :: t :=
    notMem_cons (by decide) (notMem_cons (by decide) (notMem_cons (by decide)
      (notMem_cons (by decide) (plain_notMem ht (by decide)))))
  obtain ⟨b, i, f, c, p, d, u, o, lk⟩ := inert_wrapped "<h3>".data "</h3>".data t ht
    ⟨by decide, by decide, by decide, by decide⟩
    ⟨by decide, by decide, by decide, by decide⟩
    (by decide) (by decide) (by decide) rfl
  simp only [convertMarkdownToHTMLChars]
  rw [lineMap_single _ _ hnl0, headerLine_h3, b, i, f, c, p, d, u, o, lk]

theorem md_strong (t : List Char) (ht : ∀ c ∈ t, mdPlain c = true) :
    convertMarkdownToHTMLChars ('*' :: '*' :: (t ++ ['*', '*']))
      = "<strong>".data ++ t ++ "</strong>".data := by
  have hnl0 : '\n' ∉ '*' :: '*' :: (t ++ ['*', '*']) :=
    notMem_cons (by decide) (notMem_cons (by decide)
      (notMem_append (plain_notMem ht (by decide)) (by decide)))
  have ht2 : ∀ c ∈ t, c ≠ '*' ∧ c ≠ '\n' := fun c hc =>
    ⟨(mdPlain_ne (ht c hc)).2.1, (mdPlain_ne (ht c hc)).2.2.2.1⟩
  obtain ⟨b, i, f, c, p, d, u, o, lk⟩ := inert_wrapped "<strong>".data "</strong>".data t ht
    ⟨by decide, by decide, by decide, by decide⟩
    ⟨by decide, by decide, by decide, by decide⟩
    (by decide) (by decide) (by decide) rfl
  simp only [convertMarkdownToHTMLChars]
  rw [lineMap_single _ _ hnl0, headerLine_cons_ne _ _ (by decide), boldScan_strong ht2,
    i, f, c, p, d, u, o, lk]

theorem md_em (t : List Char) (htne : t ≠ []) (ht : ∀ c ∈ t, mdPlain c = true) :
    convertMarkdownToHTMLChars ('*' :: (t ++ ['*']))
      = "<em>".data ++ t ++ "</em>".data := by
  obtain ⟨c0, t', rfl⟩ : ∃ c0 t', t = c0 :: t' := by
    cases t with
    | nil => exact absurd rfl htne
    | cons a b => exact ⟨a, b, rfl⟩
  have hc0 := mdPlain_ne (ht c0 (List.mem_cons_self c0 t'))
  have hnl0 : '\n' ∉ '*' :: ((c0 :: t') ++ ['*']) :=
    notMem_cons (by decide) (notMem_append (plain_notMem ht (by decide)) (by decide))
  have hp : hasPair '*' '*' ('*' :: ((c0 :: t') ++ ['*'])) = false := by
    apply hasPair_cons_of_ne
    · left
      simp only [List.cons_append, List.head?_cons]
      intro he
      injection he with he
      exact hc0.2.1 he
    · refine hasPair_append_false
        (hasPair_eq_false_of_notMem (plain_notMem ht (by decide))) (by decide) ?_
      exact Or.inl (plain_getLast_ne ht (by decide))
  have ht2 : ∀ c ∈ c0 :: t', c ≠ '*' ∧ c ≠ '\n' := fun c hc =>
    ⟨(mdPlain_ne (ht c hc)).2.1, (mdPlain_ne (ht c hc)).2.2.2.1⟩
  obtain ⟨b, i, f, c, p, d, u, o, lk⟩ := inert_wrapped "<em>".data "</em>".data (c0 :: t') ht
    ⟨by decide, by decide, by decide, by decide⟩
    ⟨by decide, by decide, by decide, by decide⟩
    (by decide) (by decide) (by decide) rfl
  simp only [convertMarkdownToHTMLChars]
  rw [lineMap_single _ _ hnl0, headerLine_cons_ne _ _ (by decide), boldScan_of_noPair hp,
    italicScan_em ht2, f, c, p, d, u, o, lk]

theorem md_code (t : List Char) (htne : t ≠ []) (ht : ∀ c ∈ t, mdPlain c = true) :
    convertMarkdownToHTMLChars ('`' :: (t ++ ['`']))
      = "<code>".data ++ t ++ "</code>".data := by
  obtain ⟨c0, t', rfl⟩ : ∃ c0 t', t = c0 :: t' := by
    cases t with
    | nil => exact absurd rfl htne
    | cons a b => exact ⟨a, b, rfl⟩
  have hc0 := mdPlain_ne (ht c0 (List.mem_cons_self c0 t'))
  have hnl0 : '\n' ∉ '`' :: ((c0 :: t') ++ ['`']) :=
    notMem_cons (by decide) (notMem_append (plain_notMem ht (by decide)) (by decide))
  have hstar0 : '*' ∉ '`' :: ((c0 :: t') ++ ['`']) :=
    notMem_cons (by decide) (notMem_append (plain_notMem ht (by decide)) (by decide))
  have hp : hasPair '`' '`' ('`' :: ((c0 :: t') ++ ['`'])) = false := by
    apply hasPair_cons_of_ne
    · left
      simp only [List.cons_append, List.head?_cons]
      intro he
      injection he with he
      exact hc0.2.2.1 he
    · refine hasPair_append_false
        (hasPair_eq_false_of_notMem (plain_notMem ht (by decide))) (by decide) ?_
      exact Or.inl (plain_getLast_ne ht (by decide))
  have ht2 : ∀ c ∈ c0 :: t', c ≠ '`' ∧ c ≠ '\n' := fun c hc =>
    ⟨(mdPlain_ne (ht c hc)).2.2.1, (mdPlain_ne (ht c hc)).2.2.2.1⟩
  obtain ⟨b, i, f, c, p, d, u, o, lk⟩ := inert_wrapped "<code>".data "</code>".data
    (c0 :: t') ht
    ⟨by decide, by decide, by decide, by decide⟩
    ⟨by decide, by decide, by decide, by decide⟩
    (by decide) (by decide) (by decide) rfl
  simp only [convertMarkdownToHTMLChars]
  rw [lineMap_single _ _ hnl0, headerLine_cons_ne _ _ (by decide),
    boldScan_of_notMem hstar0, italicScan_of_notMem hstar0, fenceScan_of_noPair hp,
    codeScan_code ht2, p, d, u, o, lk]

theorem md_fence (t : List Char) (htne : t ≠ []) (ht : ∀ c ∈ t, mdPlain c = true) :
    convertMarkdownToHTMLChars ('`' :: '`' :: '`' :: '\n' :: (t ++ ['`', '`', '`']))
      = "<pre><code class=\"language-\">".data ++ t ++ "</code></pre>".data := by
  have hmapjoin : joinLines ((splitLines
      ('`' :: '`' :: '`' :: '\n' :: (t ++ ['`', '`', '`']))).map headerLine)
      = '`' :: '`' :: '`' :: '\n' :: (t ++ ['`', '`', '`']) := by
    have hsplit : splitLines ('`' :: '`' :: '`' :: '\n' :: (t ++ ['`', '`', '`']))
        = ["```".data, t ++ ['`', '`', '`']] := by
      show splitOnChar '\n' ("```".data ++ '\n' :: (t ++ ['`', '`', '`'])) = _
      rw [splitOnChar_append _ (by decide),
        splitOnChar_of_notMem (notMem_append (plain_notMem ht (by decide)) (by decide))]
    rw [hsplit]
    simp only [List.map_cons, List.map_nil]
    rw [show headerLine "```".data = "```".data from by decide,
      headerLine_of_plain_ne_nil _ htne ht, joinLines_cons _ _ (by simp)]
    rfl
  have hstar : '*' ∉ '`' :: '`' :: '`' :: '\n' :: (t ++ ['`', '`', '`']) :=
    notMem_cons (by decide) (notMem_cons (by decide) (notMem_cons (by decide)
      (notMem_cons (by decide)
        (notMem_append (plain_notMem ht (by decide)) (by decide)))))
  have ht3 : ∀ c ∈ t, c ≠ '`' := fun c hc => (mdPlain_ne (ht c hc)).2.2.1
  obtain ⟨b, i, f, c, p, d, u, o, lk⟩ := inert_wrapped
    "<pre><code class=\"language-\">".data "</code></pre>".data t ht
    ⟨by decide, by decide, by decide, by decide⟩
    ⟨by decide, by decide, by decide, by decide⟩
    (by decide) (by decide) (by decide) rfl
  simp only [convertMarkdownToHTMLChars]
  rw [hmapjoin, boldScan_of_notMem hstar, italicScan_of_notMem hstar,
    fenceScan_block ht3, c, p, d, u, o, lk]

theorem md_para (t u : List Char) (htne : t ≠ [])
    (ht : ∀ c ∈ t, mdPlain c = true) (hu : ∀ c ∈ u, mdPlain c = true) :
    convertMarkdownToHTMLChars (t ++ '\n' :: '\n' :: u)
      = t ++ ("</p><p>".data ++ u) := by
  have hmapjoin : joinLines ((splitLines (t ++ '\n' :: '\n' :: u)).map headerLine)
      = t ++ '\n' :: '\n' :: u := by
    have hsplit : splitLines (t ++ '\n' :: '\n' :: u) = [t, [], u] := by
      show splitOnChar '\n' (t ++ '\n' :: ('\n' :: u)) = _
      rw [splitOnChar_append _ (plain_notMem ht (by decide)),
        show splitOnChar '\n' ('\n' :: u) = [] :: splitOnChar '\n' u from by
          simp [splitOnChar],
        splitOnChar_of_notMem (plain_notMem hu (by decide))]
    rw [hsplit]
    simp only [List.map_cons, List.map_nil]
    rw [headerLine_plain ht, headerLine_plain hu,
      show headerLine [] = [] from rfl, joinLines_cons _ _ (by simp),
      joinLines_cons _ _ (by simp)]
    rfl
  have hstar : '*' ∉ t ++ '\n' :: '\n' :: u :=
    notMem_append (plain_notMem ht (by decide))
      (notMem_cons (by decide) (notMem_cons (by decide) (plain_notMem hu (by decide))))
  have htick : '`' ∉ t ++ '\n' :: '\n' :: u :=
    notMem_append (plain_notMem ht (by decide))
      (notMem_cons (by decide) (notMem_cons (by decide) (plain_notMem hu (by decide))))
  have hpara : paraScan (t ++ '\n' :: '\n' :: u) = t ++ ("</p><p>".data ++ u) := by
    rw [paraScan_append_of_notMem _ (plain_notMem ht (by decide)), paraScan_break,
      paraScan_of_notMem (plain_notMem hu (by decide))]
  have hnl6 : '\n' ∉ t ++ ("</p><p>".data ++ u) :=
    notMem_append (plain_notMem ht (by decide))
      (notMem_append (by decide) (plain_notMem hu (by decide)))
  have hlb6 : '[' ∉ t ++ ("</p><p>".data ++ u) :=
    notMem_append (plain_notMem ht (by decide))
      (notMem_append (by decide) (plain_notMem hu (by decide)))
  have hpair6 : hasPair '<' 'l' (t ++ ("</p><p>".data ++ u)) = false := by
    refine hasPair_append_false (hasPair_eq_false_of_notMem (plain_notMem ht (by decide)))
      ?_ (Or.inl (plain_getLast_ne ht (by decide)))
    refine hasPair_append_false (by decide)
      (hasPair_eq_false_of_notMem (plain_notMem hu (by decide))) ?_
    exact Or.inl (by decide)
  simp only [convertMarkdownToHTMLChars]
  rw [hmapjoin, boldScan_of_notMem hstar, italicScan_of_notMem hstar,
    fenceScan_of_notMem htick, codeScan_of_notMem htick, hpara,
    lineMap_single _ _ hnl6, dashLine_of_plain_ne_nil _ htne ht,
    ulWrap_of_noPair hpair6, lineMap_single _ _ hnl6,
    olLine_of_plain_append ("</p><p>".data ++ u) ht rfl, linkScan_of_notMem hlb6]

theorem md_link (t u : List Char) (htne : t ≠ []) (hune : u ≠ [])
    (ht : ∀ c ∈ t, mdPlain c = true) (hu : ∀ c ∈ u, mdPlain c = true) :
    convertMarkdownToHTMLChars ('[' :: (t ++ ']' :: '(' :: (u ++ [')'])))
      = "<a href=\"".data ++ u ++
          "\" target=\"_blank\" rel=\"noopener noreferrer\">".data ++
          t ++ "</a>".data := by
  have hnl0 : '\n' ∉ '[' :: (t ++ ']' :: '(' :: (u ++ [')'])) :=
    notMem_cons (by decide) (notMem_append (plain_notMem ht (by decide))
      (notMem_cons (by decide) (notMem_cons (by decide)
        (notMem_append (plain_notMem hu (by decide)) (by decide)))))
  have hstar0 : '*' ∉ '[' :: (t ++ ']' :: '(' :: (u ++ [')'])) :=
    notMem_cons (by decide) (notMem_append (plain_notMem ht (by decide))
      (notMem_cons (by decide) (notMem_cons (by decide)
        (notMem_append (plain_notMem hu (by decide)) (by decide)))))
  have htick0 : '`' ∉ '[' :: (t ++ ']' :: '(' :: (u ++ [')'])) :=
    notMem_cons (by decide) (notMem_append (plain_notMem ht (by decide))
      (notMem_cons (by decide) (notMem_cons (by decide)
        (notMem_append (plain_notMem hu (by decide)) (by decide)))))
  have hlt0 : '<' ∉ '[' :: (t ++ ']' :: '(' :: (u ++ [')'])) :=
    notMem_cons (by decide) (notMem_append (plain_notMem ht (by decide))
      (notMem_cons (by decide) (notMem_cons (by decide)
        (notMem_append (plain_notMem hu (by decide)) (by decide)))))
  simp only [convertMarkdownToHTMLChars]
  rw [lineMap_single _ _ hnl0, headerLine_cons_ne _ _ (by decide),
    boldScan_of_notMem hstar0, italicScan_of_notMem hstar0,
    fenceScan_of_notMem htick0, codeScan_of_notMem htick0,
    paraScan_of_notMem hnl0, lineMap_single _ _ hnl0,
    dashLine_of_head_eq (l := '[' :: (t ++ ']' :: '(' :: (u ++ [')']))) rfl (by decide),
    ulWrap_of_noPair (hasPair_eq_false_of_notMem hlt0),
    lineMap_single _ _ hnl0,
    olLine_of_head_eq (l := '[' :: (t ++ ']' :: '(' :: (u ++ [')']))) rfl (by decide),
    linkScan_anchor htne hune (plain_notMem ht (by decide)) (plain_notMem hu (by decide))]

/-- Claim C4: `convertMarkdownToHTML` converts the supported markdown subset
to HTML.  For text `t`, `u` made of ordinary characters (no markdown
metacharacters, in the sense of `mdPlain`): a line starting `# `/`## `/`### `
becomes the corresponding header element, `**t**` becomes `<strong>t</strong>`,
`*t*` becomes `<em>t</em>`, a backtick span becomes `<code>t</code>`, a
triple-backtick fenced block becomes `<pre><code ...>t</code></pre>`, a blank
line (two consecutive newlines) becomes the paragraph break `</p><p>`, and
`[t](u)` becomes an anchor to `u`. -/
theorem C4_convertMarkdownToHTML_subset (t u : List Char)
    (ht : ∀ c ∈ t, mdPlain c = true) (hu : ∀ c ∈ u, mdPlain c = true)
    (htne : t ≠ []) (hune : u ≠ []) :
    convertMarkdownToHTML (String.mk ('#' :: ' ' :: t))
        = String.mk ("<h1>".data ++ t ++ "</h1>".data)
    ∧ convertMarkdownToHTML (String.mk ('#' :: '#' :: ' ' :: t))
        = String.mk ("<h2>".data ++ t ++ "</h2>".data)
    ∧ convertMarkdownToHTML (String.mk ('#' :: '#' :: '#' :: ' ' :: t))
        = String.mk ("<h3>".data ++ t ++ "</h3>".data)
    ∧ convertMarkdownToHTML (String.mk ('*' :: '*' :: (t ++ ['*', '*'])))
        = String.mk ("<strong>".data ++ t ++ "</strong>".data)
    ∧ convertMarkdownToHTML (String.mk ('*' :: (t ++ ['*'])))
        = String.mk ("<em>".data ++ t ++ "</em>".data)
    ∧ convertMarkdownToHTML (String.mk ('`' :: (t ++ ['`'])))
        = String.mk ("<code>".data ++ t ++ "</code>".data)
    ∧ convertMarkdownToHTML
          (String.mk ('`' :: '`' :: '`' :: '\n' :: (t ++ ['`', '`', '`'])))
        = String.mk ("<pre><code class=\"language-\">".data ++ t ++ "</code></pre>".data)
    ∧ convertMarkdownToHTML (String.mk (t ++ '\n' :: '\n' :: u))
        = String.mk (t ++ ("</p><p>".data ++ u))
    ∧ convertMarkdownToHTML (String.mk ('[' :: (t ++ ']' :: '(' :: (u ++ [')']))))
        = String.mk ("<a href=\"".data ++ u ++
            "\" target=\"_blank\" rel=\"noopener noreferrer\">".data ++
            t ++ "</a>".data) :=
  ⟨congrArg String.mk (md_h1 t ht), congrArg String.mk (md_h2 t ht),
   congrArg String.mk (md_h3 t ht), congrArg String.mk (md_strong t ht),
   congrArg String.mk (md_em t htne ht), congrArg String.mk (md_code t htne ht),
   congrArg String.mk (md_fence t htne ht), congrArg String.mk (md_para t u htne ht hu),
   congrArg String.mk (md_link t u htne hune ht hu)⟩

/-- Witness for C4 at concrete text: `# Hi`, `**Hi**`, and a blank line
between `Hi` and `ok`. -/
theorem C4_witness :
    convertMarkdownToHTML (String.mk ('#' :: ' ' :: "Hi".data))
        = String.mk ("<h1>".data ++ "Hi".data ++ "</h1>".data)
    ∧ convertMarkdownToHTML (String.mk ('*' :: '*' :: ("Hi".data ++ ['*', '*'])))
        = String.mk ("<strong>".data ++ "Hi".data ++ "</strong>".data)
    ∧ convertMarkdownToHTML (String.mk ("Hi".data ++ '\n' :: '\n' :: "ok".data))
        = String.mk ("Hi".data ++ ("</p><p>".data ++ "ok".data)) := by
  obtain ⟨h1, _, _, h4, _, _, _, h8, _⟩ := C4_convertMarkdownToHTML_subset
    "Hi".data "ok".data (by decide) (by decide) (by decide) (by decide)
  exact ⟨h1, h4, h8⟩

end Portfolio

